import Mathlib

/-!
Verification of the 3ds_sync repository core against its specification.

Shallow embedding of the sync engine, bundle codec, SHA-256, SPI cartridge
driver and batch-sync metadata builder, translated from the C sources:

- src/client/source/sync.c      (3DS client: sync_decide, upload/download, sync_all)
- src/ds/source/sync.c          (DS client: sync_decide)
- src/client/source/bundle.c    (bundle_create, bundle_parse, bundle_compute_save_hash)
- src/ds/source/sha256.c        (sha256_hash)
- src/client/source/card_spi.c  (card_spi_detect, card_spi_read_save, card_spi_write_save)

Machine integers are modelled as Nat with explicit reductions mod 2^w at the
points where the C code performs fixed-width arithmetic. Hash values compared
by strcmp / strncasecmp are modelled as abstract Nat values (equality of the
model values corresponds to equality of the 64-char hex strings).
-/

/-- Sync action enum, shared shape of SyncAction (client/source/sync.h) and
the DS action enum (ds/include/common.h). -/
inductive SyncAction where
  | UPLOAD
  | DOWNLOAD
  | UP_TO_DATE
  | CONFLICT
deriving DecidableEq, Repr

namespace Client

/-- The fields of SaveDetails (client/source/sync.h) that sync_decide reads.
Hash char arrays are modelled as Nat values. -/
structure SaveDetails where
  local_exists : Bool
  server_exists : Bool
  is_synced : Bool
  has_last_synced : Bool
  local_hash : Nat
  server_hash : Nat
  last_synced_hash : Nat

/-- Embedding of sync_decide (client/source/sync.c lines 612-650). -/
def sync_decide (details : SaveDetails) : SyncAction :=
  if !details.local_exists && !details.server_exists then
    SyncAction.UP_TO_DATE
  else if details.local_exists && !details.server_exists then
    SyncAction.UPLOAD
  else if !details.local_exists && details.server_exists then
    SyncAction.DOWNLOAD
  else if details.is_synced then
    SyncAction.UP_TO_DATE
  else if details.has_last_synced then
    if details.last_synced_hash = details.server_hash then
      SyncAction.UPLOAD
    else if details.last_synced_hash = details.local_hash then
      SyncAction.DOWNLOAD
    else
      SyncAction.CONFLICT
  else
    SyncAction.CONFLICT

/-- Builds the SaveDetails fields the way sync_get_save_details
(client/source/sync.c lines 530-610) computes them for a title whose
local, server and last-synced hashes are given as options: the exists
flags mirror presence, and is_synced is the comparison of local and
server hash when both exist. The hash fields for absent sides are
sentinel values that sync_decide never reads. -/
def mkSaveDetails (lh sh lz : Option Nat) : SaveDetails where
  local_exists := lh.isSome
  server_exists := sh.isSome
  is_synced :=
    match lh, sh with
    | some l, some s => decide (l = s)
    | _, _ => false
  has_last_synced := lz.isSome
  local_hash := lh.getD 0
  server_hash := sh.getD 0
  last_synced_hash := lz.getD 0

/-- The client decide() as a pure function of the three optional hashes. -/
def decide (lh sh lz : Option Nat) : SyncAction :=
  sync_decide (mkSaveDetails lh sh lz)

end Client

namespace Ds

/-- Embedding of the three-way decision logic of the DS sync_decide
(ds/source/sync.c lines 146-193, Step 6). has_local is save_size > 0,
the hex-string comparisons via strncasecmp are modelled as equality of
the abstract hash values, timestamps are uint32 values where 0 means
missing. -/
def sync_decide (has_local : Bool) (local_hash : Nat)
    (has_server : Bool) (server_hash : Nat)
    (has_last_synced : Bool) (last_synced_hash : Nat)
    (local_mtime server_timestamp : Nat) : SyncAction :=
  if !has_local && !has_server then
    SyncAction.UP_TO_DATE
  else if has_local && !has_server then
    SyncAction.UPLOAD
  else if !has_local && has_server then
    SyncAction.DOWNLOAD
  else if local_hash = server_hash then
    SyncAction.UP_TO_DATE
  else if has_last_synced then
    if last_synced_hash = server_hash then
      SyncAction.UPLOAD
    else if last_synced_hash = local_hash then
      SyncAction.DOWNLOAD
    else
      SyncAction.CONFLICT
  else
    if local_mtime > 0 && server_timestamp > 0 then
      if local_mtime > server_timestamp then
        SyncAction.UPLOAD
      else if local_mtime < server_timestamp then
        SyncAction.DOWNLOAD
      else
        SyncAction.CONFLICT
    else
      SyncAction.CONFLICT

/-- The DS decide() as a function of the three optional hashes plus the
two timestamps. -/
def decide (lh sh lz : Option Nat) (local_mtime server_timestamp : Nat) :
    SyncAction :=
  sync_decide lh.isSome (lh.getD 0) sh.isSome (sh.getD 0)
    lz.isSome (lz.getD 0) local_mtime server_timestamp

end Ds

/-- Claim C1: for every combination of optional local, server and last-synced
hashes, both implementations of decide() return the action of the table of
spec section 4.8 in the cases not involving mtimes: absent/absent is
UP_TO_DATE, present/absent is UPLOAD, absent/present is DOWNLOAD, equal
hashes is UP_TO_DATE, and with both present, different, and a last-synced
hash: UPLOAD when last-synced equals the server hash, DOWNLOAD when it
equals the local hash, CONFLICT when all three differ. -/
theorem decide_matches_spec_table (lv sv zv lm st : Nat) :
    (∀ z, Client.decide none none z = SyncAction.UP_TO_DATE ∧
      Ds.decide none none z lm st = SyncAction.UP_TO_DATE)
    ∧ (∀ z, Client.decide (some lv) none z = SyncAction.UPLOAD ∧
      Ds.decide (some lv) none z lm st = SyncAction.UPLOAD)
    ∧ (∀ z, Client.decide none (some sv) z = SyncAction.DOWNLOAD ∧
      Ds.decide none (some sv) z lm st = SyncAction.DOWNLOAD)
    ∧ (∀ z, Client.decide (some lv) (some lv) z = SyncAction.UP_TO_DATE ∧
      Ds.decide (some lv) (some lv) z lm st = SyncAction.UP_TO_DATE)
    ∧ (lv ≠ sv →
      Client.decide (some lv) (some sv) (some sv) = SyncAction.UPLOAD ∧
      Ds.decide (some lv) (some sv) (some sv) lm st = SyncAction.UPLOAD)
    ∧ (lv ≠ sv →
      Client.decide (some lv) (some sv) (some lv) = SyncAction.DOWNLOAD ∧
      Ds.decide (some lv) (some sv) (some lv) lm st = SyncAction.DOWNLOAD)
    ∧ (lv ≠ sv → zv ≠ lv → zv ≠ sv →
      Client.decide (some lv) (some sv) (some zv) = SyncAction.CONFLICT ∧
      Ds.decide (some lv) (some sv) (some zv) lm st = SyncAction.CONFLICT) := by
  refine ⟨?_, ?_, ?_, ?_, ?_, ?_, ?_⟩ <;>
    simp only [Client.decide, Client.mkSaveDetails, Client.sync_decide,
      Ds.decide, Ds.sync_decide]
  · intro z
    cases z <;> simp
  · intro z
    cases z <;> simp
  · intro z
    cases z <;> simp
  · intro z
    cases z <;> simp
  · intro h
    simp [h]
  · intro h
    simp [h, Ne.symm h]
  · intro h hzl hzs
    simp [h, hzl, hzs]

/-- Witness for C1: the all-distinct case at concrete hashes 1, 2, 3 yields
CONFLICT on both implementations. -/
theorem decide_matches_spec_table_witness :
    Client.decide (some 1) (some 2) (some 3) = SyncAction.CONFLICT ∧
    Ds.decide (some 1) (some 2) (some 3) 0 0 = SyncAction.CONFLICT :=
  (decide_matches_spec_table 1 2 3 0 0).2.2.2.2.2.2
    (by decide) (by decide) (by decide)

/-- Claim C2: with both hashes present and different and no last-synced hash,
the DS decide() applies the mtime fallback (newer side wins, tie or missing
timestamp yields CONFLICT), and the 3DS client decide(), which consumes no
timestamps at all, yields CONFLICT in this case (its inputs never carry a
timestamp, matching the missing-timestamp arm of the table). -/
theorem decide_mtime_fallback (lv sv lm st : Nat) (hne : lv ≠ sv) :
    (lm > 0 → st > 0 → lm > st →
      Ds.decide (some lv) (some sv) none lm st = SyncAction.UPLOAD)
    ∧ (lm > 0 → st > 0 → st > lm →
      Ds.decide (some lv) (some sv) none lm st = SyncAction.DOWNLOAD)
    ∧ (lm > 0 → st > 0 → lm = st →
      Ds.decide (some lv) (some sv) none lm st = SyncAction.CONFLICT)
    ∧ (lm = 0 ∨ st = 0 →
      Ds.decide (some lv) (some sv) none lm st = SyncAction.CONFLICT)
    ∧ Client.decide (some lv) (some sv) none = SyncAction.CONFLICT := by
  refine ⟨?_, ?_, ?_, ?_, ?_⟩ <;>
    simp only [Client.decide, Client.mkSaveDetails, Client.sync_decide,
      Ds.decide, Ds.sync_decide]
  · intro h1 h2 h3
    simp [hne, h1, h2, h3]
  · intro h1 h2 h3
    simp [hne, h1, h2, h3, Nat.lt_asymm h3]
  · intro h1 h2 h3
    simp [hne, h1, h2, h3]
  · intro h
    rcases h with h | h <;> simp [hne, h]
  · simp [hne]

/-- Witness for C2: local mtime 10 beats server timestamp 5, so the DS
decide() uploads; the client decide() reports CONFLICT. -/
theorem decide_mtime_fallback_witness :
    Ds.decide (some 1) (some 2) none 10 5 = SyncAction.UPLOAD ∧
    Client.decide (some 1) (some 2) none = SyncAction.CONFLICT :=
  ⟨(decide_mtime_fallback 1 2 10 5 (by decide)).1 (by decide) (by decide)
      (by decide),
    (decide_mtime_fallback 1 2 10 5 (by decide)).2.2.2.2⟩

namespace Sha256

/-- Reduction of a sum modulo 2^32, the uint32 addition of the C code. -/
def add32 (a b : Nat) : Nat := (a + b) % 2 ^ 32

/-- ROTR macro of ds/source/sha256.c for a uint32 value. -/
def rotr (x n : Nat) : Nat := ((x >>> n) ||| (x <<< (32 - n))) % 2 ^ 32

/-- CH macro: (x AND y) XOR (NOT x AND z), with NOT on 32 bits. -/
def ch (x y z : Nat) : Nat := (x &&& y) ^^^ ((x ^^^ 0xFFFFFFFF) &&& z)

/-- MAJ macro. -/
def maj (x y z : Nat) : Nat := (x &&& y) ^^^ (x &&& z) ^^^ (y &&& z)

/-- SIGMA0 macro. -/
def bigSigma0 (x : Nat) : Nat := rotr x 2 ^^^ rotr x 13 ^^^ rotr x 22

/-- SIGMA1 macro. -/
def bigSigma1 (x : Nat) : Nat := rotr x 6 ^^^ rotr x 11 ^^^ rotr x 25

/-- sigma0 macro. -/
def smallSigma0 (x : Nat) : Nat := rotr x 7 ^^^ rotr x 18 ^^^ (x >>> 3)

/-- sigma1 macro. -/
def smallSigma1 (x : Nat) : Nat := rotr x 17 ^^^ rotr x 19 ^^^ (x >>> 10)

/-- The round constant table K of ds/source/sha256.c. -/
def K : List Nat :=
  [1116352408, 1899447441, 3049323471, 3921009573, 961987163,
   1508970993, 2453635748, 2870763221, 3624381080, 310598401,
   607225278, 1426881987, 1925078388, 2162078206, 2614888103,
   3248222580, 3835390401, 4022224774, 264347078, 604807628,
   770255983, 1249150122, 1555081692, 1996064986, 2554220882,
   2821834349, 2952996808, 3210313671, 3336571891, 3584528711,
   113926993, 338241895, 666307205, 773529912, 1294757372,
   1396182291, 1695183700, 1986661051, 2177026350, 2456956037,
   2730485921, 2820302411, 3259730800, 3345764771, 3516065817,
   3600352804, 4094571909, 275423344, 430227734, 506948616,
   659060556, 883997877, 958139571, 1322822218, 1537002063,
   1747873779, 1955562222, 2024104815, 2227730452, 2361852424,
   2428436474, 2756734187, 3204031479, 3329325298]

/-- The message schedule W of sha256_transform, built in index order as the
two C loops do: words 0..15 from the block bytes big-endian, words 16..63
by the sigma recurrence with uint32 addition. -/
def msgSchedule (block : List Nat) : List Nat :=
  (List.range 64).foldl
    (fun W t =>
      if t < 16 then
        W ++ [(block.getD (t * 4) 0 <<< 24) ||| (block.getD (t * 4 + 1) 0 <<< 16) |||
              (block.getD (t * 4 + 2) 0 <<< 8) ||| block.getD (t * 4 + 3) 0]
      else
        W ++ [add32 (add32 (add32 (smallSigma1 (W.getD (t - 2) 0)) (W.getD (t - 7) 0))
                (smallSigma0 (W.getD (t - 15) 0))) (W.getD (t - 16) 0)])
    []

/-- Working variables a..h of the compression loop. -/
structure Vars where
  a : Nat
  b : Nat
  c : Nat
  d : Nat
  e : Nat
  f : Nat
  g : Nat
  h : Nat

/-- One round of the main loop of sha256_transform. -/
def compressStep (W : List Nat) (v : Vars) (t : Nat) : Vars :=
  let T1 := add32 (add32 (add32 (add32 v.h (bigSigma1 v.e)) (ch v.e v.f v.g))
    (K.getD t 0)) (W.getD t 0)
  let T2 := add32 (bigSigma0 v.a) (maj v.a v.b v.c)
  ⟨add32 T1 T2, v.a, v.b, v.c, add32 v.d T1, v.e, v.f, v.g⟩

/-- Embedding of sha256_transform (ds/source/sha256.c lines 34-85): the
state is a list of 8 uint32 words, the block a list of 64 bytes. -/
def sha256_transform (state : List Nat) (block : List Nat) : List Nat :=
  let W := msgSchedule block
  let v0 : Vars := ⟨state.getD 0 0, state.getD 1 0, state.getD 2 0, state.getD 3 0,
    state.getD 4 0, state.getD 5 0, state.getD 6 0, state.getD 7 0⟩
  let v := (List.range 64).foldl (compressStep W) v0
  [add32 (state.getD 0 0) v.a, add32 (state.getD 1 0) v.b,
   add32 (state.getD 2 0) v.c, add32 (state.getD 3 0) v.d,
   add32 (state.getD 4 0) v.e, add32 (state.getD 5 0) v.f,
   add32 (state.getD 6 0) v.g, add32 (state.getD 7 0) v.h]

/-- The initial hash state of sha256_hash. -/
def initState : List Nat :=
  [1779033703, 3144134277, 1013904242,
   2773480762, 1359893119, 2600822924,
   528734635, 1541459225]

/-- The full-block loop of sha256_hash, with structural fuel so that the
kernel can evaluate it; the fuel is the byte count, which bounds the
number of 64-byte iterations, so it is never exhausted before fewer than
64 bytes remain. -/
def sha256_go : Nat → List Nat → List Nat → List Nat × List Nat
  | 0, state, data => (state, data)
  | fuel + 1, state, data =>
    if 64 ≤ data.length then
      sha256_go fuel (sha256_transform state (data.take 64)) (data.drop 64)
    else
      (state, data)

/-- The full-block loop of sha256_hash: processes 64-byte blocks while at
least 64 bytes remain, and returns the state plus the remaining bytes. -/
def sha256_blocks (state : List Nat) (data : List Nat) : List Nat × List Nat :=
  sha256_go data.length state data

/-- Big-endian byte output of one uint32 word, as the uint8 assignments of
the C code truncate it. -/
def be32bytes (v : Nat) : List Nat :=
  [(v >>> 24) % 256, (v >>> 16) % 256, (v >>> 8) % 256, v % 256]

/-- Embedding of sha256_hash (ds/source/sha256.c lines 87-135): one-shot
SHA-256 over a byte list, including the exact padding logic of the source
(len is the uint32 byte count, bits_high = len >> 29,
bits_low = (len << 3) truncated to 32 bits). -/
def sha256_hash (data : List Nat) : List Nat :=
  let len := data.length
  let bits_high := len >>> 29
  let bits_low := (len <<< 3) % 2 ^ 32
  let lengthBytes := be32bytes bits_high ++ be32bytes bits_low
  let sr := sha256_blocks initState data
  let state := sr.1
  let rem := sr.2
  let finalState :=
    if rem.length ≥ 56 then
      let b1 := rem ++ [0x80] ++ List.replicate (64 - rem.length - 1) 0
      sha256_transform (sha256_transform state b1)
        (List.replicate 56 0 ++ lengthBytes)
    else
      sha256_transform state
        (rem ++ [0x80] ++ List.replicate (56 - rem.length - 1) 0 ++ lengthBytes)
  (finalState.map be32bytes).flatten

end Sha256

/-- One file of a save archive (ArchiveFile in client/source/archive.h):
path bytes, declared size, and data bytes. -/
structure ArchiveFile where
  path : List Nat
  size : Nat
  data : List Nat
deriving DecidableEq, Repr

/-- The sixteen lowercase hex digit characters used by the %02x format. -/
def hexChars : List Char :=
  "0123456789abcdef".data

/-- Two lowercase hex characters for one byte, as snprintf %02x emits for a
value below 256. -/
def byteToHex (b : Nat) : List Char :=
  [hexChars.getD (b / 16) '0', hexChars.getD (b % 16) '0']

/-- Hex formatting of a byte list, as the output loops of
bundle_compute_save_hash and hash_to_hex emit it. -/
def bytesToHexLower (bs : List Nat) : String :=
  ⟨(bs.map byteToHex).flatten⟩

/-- Modelled from the spec: the streaming SHA-256 context of
client/source/sha256.h (sha256_init, sha256_update, sha256_final); the
implementation file is not under src. Per spec section 4.1 the context
absorbs the update bytes and finalize yields the SHA-256 digest of all
absorbed bytes, computed here by the sha256_hash embedding taken from
ds/source/sha256.c. -/
abbrev SHA256_CTX : Type := List Nat

/-- Modelled from the spec: sha256_init starts an empty context. -/
def sha256_init : SHA256_CTX := []

/-- Modelled from the spec: sha256_update absorbs len bytes of data. -/
def sha256_update (ctx : SHA256_CTX) (bytes : List Nat) : SHA256_CTX :=
  ctx ++ bytes

/-- Modelled from the spec: sha256_final digests everything absorbed. -/
def sha256_final (ctx : SHA256_CTX) : List Nat :=
  Sha256.sha256_hash ctx

namespace Client

/-- Embedding of bundle_compute_save_hash (client/source/bundle.c lines
222-238): stream each file data buffer (size bytes of it) through the
hash in table order, then hex-format the 32-byte digest. -/
def bundle_compute_save_hash (files : List ArchiveFile) : String :=
  bytesToHexLower (sha256_final
    (files.foldl (fun ctx f => sha256_update ctx (f.data.take f.size)) sha256_init))

end Client

/-- Folding appends over a list equals one flatten of the mapped pieces. -/
theorem foldl_append_eq_flatten {α : Type} (g : α → List Nat) :
    ∀ (l : List α) (acc : List Nat),
      l.foldl (fun a x => a ++ g x) acc = acc ++ (l.map g).flatten := by
  intro l
  induction l with
  | nil => simp
  | cons x xs ih =>
    intro acc
    simp [List.foldl_cons, ih (acc ++ g x)]

/-- sha256_transform always returns an 8-word state. -/
theorem length_sha256_transform (s b : List Nat) :
    (Sha256.sha256_transform s b).length = 8 := by
  simp [Sha256.sha256_transform]

/-- Flattening the big-endian byte output of a word list gives 4 bytes per
word. -/
theorem length_flatten_be32bytes : ∀ l : List Nat,
    ((l.map Sha256.be32bytes).flatten).length = 4 * l.length := by
  intro l
  induction l with
  | nil => simp
  | cons x xs ih => simp [Sha256.be32bytes, ih, Nat.mul_succ]

/-- sha256_hash always produces 32 bytes. -/
theorem length_sha256_hash (d : List Nat) :
    (Sha256.sha256_hash d).length = 32 := by
  unfold Sha256.sha256_hash
  dsimp only
  split <;> rw [length_flatten_be32bytes, length_sha256_transform]

/-- Every byte of sha256_hash output is below 256. -/
theorem sha256_hash_bytes_lt (d : List Nat) :
    ∀ b ∈ Sha256.sha256_hash d, b < 256 := by
  unfold Sha256.sha256_hash
  dsimp only
  split <;>
  · intro b hb
    simp only [List.mem_flatten, List.mem_map] at hb
    obtain ⟨l, ⟨w, _, hw⟩, hbl⟩ := hb
    subst hw
    simp only [Sha256.be32bytes, List.mem_cons, List.mem_singleton] at hbl
    rcases hbl with h | h | h | h | h <;> first
      | (subst h; exact Nat.mod_lt _ (by omega))
      | exact absurd h (by simp)

/-- Indexing into the hex digit table always lands in the table. -/
theorem hexChars_getD_mem (i : Nat) : hexChars.getD i '0' ∈ hexChars := by
  by_cases h : i < hexChars.length
  · rw [List.getD_eq_getElem hexChars '0' h]
    exact List.getElem_mem h
  · rw [List.getD_eq_default hexChars '0' (by omega)]
    decide

/-- Claim C6: for every file list whose declared sizes match their data, the
save hash is the SHA-256 digest of the concatenation of the file data
buffers in table order, formatted as 64 characters drawn from the lowercase
hex alphabet; paths, title_id and timestamp are not inputs of the
computation at all. -/
theorem save_hash_is_sha256_of_concat (files : List ArchiveFile)
    (hsz : ∀ f ∈ files, f.size = f.data.length) :
    Client.bundle_compute_save_hash files
        = bytesToHexLower (Sha256.sha256_hash (files.map (fun f => f.data)).flatten)
    ∧ (Client.bundle_compute_save_hash files).length = 64
    ∧ ∀ c ∈ (Client.bundle_compute_save_hash files).toList, c ∈ hexChars := by
  have hconcat : Client.bundle_compute_save_hash files
      = bytesToHexLower (Sha256.sha256_hash (files.map (fun f => f.data)).flatten) := by
    unfold Client.bundle_compute_save_hash
    rw [show (fun (ctx : SHA256_CTX) (f : ArchiveFile) =>
          sha256_update ctx (f.data.take f.size))
        = fun ctx f => ctx ++ (f.data.take f.size) from rfl]
    rw [foldl_append_eq_flatten (fun f : ArchiveFile => f.data.take f.size) files
      sha256_init]
    have : files.map (fun f : ArchiveFile => f.data.take f.size)
        = files.map (fun f => f.data) := by
      apply List.map_congr_left
      intro f hf
      rw [hsz f hf]
      exact List.take_length f.data
    rw [this]
    rfl
  refine ⟨hconcat, ?_, ?_⟩
  · rw [hconcat]
    show ((Sha256.sha256_hash _).map byteToHex).flatten.length = 64
    have h32 := length_sha256_hash (files.map (fun f => f.data)).flatten
    generalize Sha256.sha256_hash (files.map (fun f => f.data)).flatten = bs at h32 ⊢
    have : ∀ l : List Nat, ((l.map byteToHex).flatten).length = 2 * l.length := by
      intro l
      induction l with
      | nil => simp
      | cons x xs ih => simp [byteToHex, ih, Nat.mul_succ]
    rw [this, h32]
  · intro c hc
    have : (Client.bundle_compute_save_hash files).toList
        = ((sha256_final
            (files.foldl (fun ctx f => sha256_update ctx (f.data.take f.size))
              sha256_init)).map byteToHex).flatten := rfl
    rw [this] at hc
    simp only [List.mem_flatten, List.mem_map] at hc
    obtain ⟨l, ⟨b, _, hb⟩, hcl⟩ := hc
    subst hb
    simp only [byteToHex, List.mem_cons, List.mem_singleton] at hcl
    rcases hcl with h | h | h
    · subst h; exact hexChars_getD_mem _
    · subst h; exact hexChars_getD_mem _
    · exact absurd h (by simp)

/-- Witness for C6: one file of three bytes 65 66 67; its save hash equals
the hex of the SHA-256 of those bytes, has 64 characters, and uses only
lowercase hex digits. -/
theorem save_hash_is_sha256_of_concat_witness :
    Client.bundle_compute_save_hash [⟨[115, 97, 118], 3, [65, 66, 67]⟩]
        = bytesToHexLower
            (Sha256.sha256_hash ([⟨[115, 97, 118], 3, [65, 66, 67]⟩].map
              (fun f : ArchiveFile => f.data)).flatten)
    ∧ (Client.bundle_compute_save_hash [⟨[115, 97, 118], 3, [65, 66, 67]⟩]).length = 64 :=
  ⟨(save_hash_is_sha256_of_concat _ (by decide)).1,
   (save_hash_is_sha256_of_concat _ (by decide)).2.1⟩

namespace Bundle

/-- uint32 addition, as the C offset arithmetic in bundle.c wraps. -/
def u32add (a b : Nat) : Nat := (a + b) % 2 ^ 32

/-- Value of a C int holding a uint32 value (the (int)file_count cast in
parse_payload). -/
def i32 (v : Nat) : Int :=
  if v < 2 ^ 31 then (v : Int) else (v : Int) - 2 ^ 32

/-- Byte read at an index of a buffer. -/
def byteAt (l : List Nat) (i : Nat) : Nat := l.getD i 0

/-- read_u16_le of bundle.c; the OR of the disjoint shifted byte fields is
written as the equal sum. -/
def read_u16_le (l : List Nat) (off : Nat) : Nat :=
  byteAt l off + 256 * byteAt l (off + 1)

/-- read_u32_le of bundle.c. -/
def read_u32_le (l : List Nat) (off : Nat) : Nat :=
  byteAt l off + 256 * byteAt l (off + 1) + 65536 * byteAt l (off + 2) +
    16777216 * byteAt l (off + 3)

/-- read_u64_be of bundle.c. -/
def read_u64_be (l : List Nat) (off : Nat) : Nat :=
  byteAt l off * 2 ^ 56 + byteAt l (off + 1) * 2 ^ 48 +
    byteAt l (off + 2) * 2 ^ 40 + byteAt l (off + 3) * 2 ^ 32 +
    byteAt l (off + 4) * 2 ^ 24 + byteAt l (off + 5) * 2 ^ 16 +
    byteAt l (off + 6) * 2 ^ 8 + byteAt l (off + 7)

/-- write_u16_le of bundle.c: the uint8 stores truncate each shifted value. -/
def write_u16_le (v : Nat) : List Nat := [v % 256, v / 256 % 256]

/-- write_u32_le of bundle.c. -/
def write_u32_le (v : Nat) : List Nat :=
  [v % 256, v / 256 % 256, v / 65536 % 256, v / 16777216 % 256]

/-- write_u64_be of bundle.c. -/
def write_u64_be (v : Nat) : List Nat :=
  [v / 2 ^ 56 % 256, v / 2 ^ 48 % 256, v / 2 ^ 40 % 256, v / 2 ^ 32 % 256,
   v / 2 ^ 24 % 256, v / 2 ^ 16 % 256, v / 2 ^ 8 % 256, v % 256]

/-- The ASCII bytes of BUNDLE_MAGIC "3DSS". -/
def bundleMagic : List Nat := [0x33, 0x44, 0x53, 0x53]

/-- The zlib pair used by bundle_create (compress2) and bundle_parse
(uncompress), which are external library calls: compress may fail, and
uncompress is given the destination capacity and fails on error or
overflow. -/
structure Codec where
  compress : List Nat → Option (List Nat)
  uncompress : List Nat → Nat → Option (List Nat)

/-- A codec is lawful when uncompressing a compressed buffer into a
destination of exactly the original length restores the original bytes
(the zlib contract the code relies on). -/
def Codec.Lawful (c : Codec) : Prop :=
  ∀ d comp, c.compress d = some comp → c.uncompress comp d.length = some d

/-- One file-table entry as bundle_create writes it (lines 107-117):
u16 path length (the strlen truncated to u16), the path bytes, u32 size,
and the 32-byte SHA-256 of the file data. -/
def fileEntryBytes (f : ArchiveFile) : List Nat :=
  let path_len := f.path.length % 2 ^ 16
  write_u16_le path_len ++ f.path.take path_len ++ write_u32_le f.size ++
    Sha256.sha256_hash (f.data.take f.size)

/-- The uncompressed payload bundle_create builds: the file table followed
by the file data buffers in the same order. -/
def bundlePayload (files : List ArchiveFile) : List Nat :=
  (files.map fileEntryBytes).flatten ++
    (files.map (fun f => f.data.take f.size)).flatten

/-- The uint32 payload_size bundle_create computes (lines 90-98): table
size plus total data size, accumulated in uint32. -/
def bundle_payload_size (files : List ArchiveFile) : Nat :=
  ((files.foldl (fun acc f => acc + (2 + f.path.length % 2 ^ 16 + 4 + 32)) 0) +
    files.foldl (fun acc f => acc + f.size) 0) % 2 ^ 32

/-- The 28-byte header: magic, version, big-endian title id, timestamp,
file count, size field. -/
def header (ver tid ts fc psz : Nat) : List Nat :=
  bundleMagic ++ write_u32_le ver ++ write_u64_be tid ++ write_u32_le ts ++
    write_u32_le fc ++ write_u32_le psz

/-- Embedding of bundle_create (client/source/bundle.c lines 87-167):
always produces a version 2 bundle, header plus deflate-compressed
payload; fails when compression fails. -/
def bundle_create (codec : Codec) (title_id timestamp : Nat)
    (files : List ArchiveFile) : Option (List Nat) :=
  let payload := bundlePayload files
  match codec.compress payload with
  | none => none
  | some compressed =>
    some (header 2 (title_id % 2 ^ 64) (timestamp % 2 ^ 32)
      (files.length % 2 ^ 32) (bundle_payload_size files) ++ compressed)

/-- Modelled from the spec: a version 1 bundle writer. bundle_create only
emits version 2; the v1 frame of spec section 6 is the same header with
version 1 followed by the raw uncompressed payload. -/
def encodeV1 (title_id timestamp : Nat) (files : List ArchiveFile) : List Nat :=
  header 1 (title_id % 2 ^ 64) (timestamp % 2 ^ 32) (files.length % 2 ^ 32)
    (bundle_payload_size files) ++ bundlePayload files

/-- The file-table loop of parse_payload (bundle.c lines 59-75), including
the uint32 wraparound of the offset arithmetic: returns the parsed
(path, size) entries and the offset after the table. -/
def parseTable (payload : List Nat) (psize : Nat) :
    Nat → Nat → Option (List (List Nat × Nat) × Nat)
  | off, 0 => some ([], off)
  | off, n + 1 =>
    if u32add off 2 > psize then none
    else
      let path_len := read_u16_le payload off
      let off1 := u32add off 2
      if u32add off1 path_len > psize then none
      else if path_len ≥ 256 then none
      else
        let path := (payload.drop off1).take path_len
        let off2 := u32add off1 path_len
        if u32add off2 4 > psize then none
        else
          let size := read_u32_le payload off2
          let off3 := u32add off2 4
          if u32add off3 32 > psize then none
          else
            match parseTable payload psize (u32add off3 32) n with
            | none => none
            | some (rest, fin) => some ((path, size) :: rest, fin)

/-- The file-data loop of parse_payload (bundle.c lines 78-82), with the
same uint32 bound check offset + size > payload_size; the data of each
file is the slice of the payload at the running offset. -/
def parseData (payload : List Nat) (psize : Nat) :
    Nat → List (List Nat × Nat) → Option (List ArchiveFile)
  | _, [] => some []
  | off, (path, size) :: rest =>
    if u32add off size > psize then none
    else
      match parseData payload psize (u32add off size) rest with
      | none => none
      | some fs => some (⟨path, size, (payload.drop off).take size⟩ :: fs)

/-- Embedding of parse_payload (bundle.c lines 52-85). -/
def parse_payload (payload : List Nat) (psize file_count : Nat)
    (max_files : Nat) : Option (List ArchiveFile) :=
  if i32 file_count > (max_files : Int) then none
  else
    match parseTable payload psize 0 file_count with
    | none => none
    | some (entries, off) => parseData payload psize off entries

/-- Embedding of bundle_parse (bundle.c lines 169-220): header checks,
version dispatch, v2 decompression with the declared-length check, then
payload parsing. -/
def bundle_parse (codec : Codec) (data : List Nat) (max_files : Nat) :
    Option (Nat × Nat × List ArchiveFile) :=
  if data.length < 28 then none
  else if data.take 4 ≠ bundleMagic then none
  else
    let version := read_u32_le data 4
    if version ≠ 1 ∧ version ≠ 2 then none
    else
      let title_id := read_u64_be data 8
      let timestamp := read_u32_le data 16
      let file_count := read_u32_le data 20
      let size_field := read_u32_le data 24
      if version = 2 then
        match codec.uncompress (data.drop 28) size_field with
        | none => none
        | some d =>
          if d.length ≠ size_field then none
          else
            (parse_payload d size_field file_count max_files).map
              (fun fs => (title_id, timestamp, fs))
      else
        (parse_payload (data.drop 28) (data.length - 28) file_count
          max_files).map (fun fs => (title_id, timestamp, fs))

end Bundle

namespace Bundle

/-- Reading a byte past a known prefix reads it from the suffix. -/
theorem byteAt_append (pre l : List Nat) (i : Nat) :
    byteAt (pre ++ l) (pre.length + i) = byteAt l i := by
  induction pre with
  | nil => simp [byteAt]
  | cons x xs ih =>
    have hx : (x :: xs).length + i = (xs.length + i) + 1 := by
      simp [List.length_cons]
      omega
    rw [hx]
    simp only [List.cons_append, byteAt, List.getD_cons_succ]
    exact ih

/-- Dropping past a known prefix drops within the suffix. -/
theorem drop_append_len (pre l : List Nat) (i : Nat) :
    (pre ++ l).drop (pre.length + i) = l.drop i := by
  induction pre with
  | nil => simp
  | cons x xs ih =>
    have hx : (x :: xs).length + i = (xs.length + i) + 1 := by
      simp [List.length_cons]
      omega
    rw [hx]
    simp only [List.cons_append, List.drop_succ_cons]
    exact ih

/-- Field readback of the 28-byte header followed by any payload. -/
theorem header_fields (ver tid ts fc psz : Nat) (p : List Nat) :
    ((header ver tid ts fc psz ++ p).take 4 = bundleMagic)
    ∧ read_u32_le (header ver tid ts fc psz ++ p) 4 = ver % 2 ^ 32
    ∧ read_u64_be (header ver tid ts fc psz ++ p) 8 = tid % 2 ^ 64
    ∧ read_u32_le (header ver tid ts fc psz ++ p) 16 = ts % 2 ^ 32
    ∧ read_u32_le (header ver tid ts fc psz ++ p) 20 = fc % 2 ^ 32
    ∧ read_u32_le (header ver tid ts fc psz ++ p) 24 = psz % 2 ^ 32
    ∧ (header ver tid ts fc psz ++ p).drop 28 = p
    ∧ (header ver tid ts fc psz ++ p).length = 28 + p.length := by
  refine ⟨rfl, ?_, ?_, ?_, ?_, ?_, rfl, ?_⟩
  · show ver % 256 + 256 * (ver / 256 % 256) + 65536 * (ver / 65536 % 256) +
      16777216 * (ver / 16777216 % 256) = ver % 2 ^ 32
    omega
  · show tid / 2 ^ 56 % 256 * 2 ^ 56 + tid / 2 ^ 48 % 256 * 2 ^ 48 +
      tid / 2 ^ 40 % 256 * 2 ^ 40 + tid / 2 ^ 32 % 256 * 2 ^ 32 +
      tid / 2 ^ 24 % 256 * 2 ^ 24 + tid / 2 ^ 16 % 256 * 2 ^ 16 +
      tid / 2 ^ 8 % 256 * 2 ^ 8 + tid % 256 = tid % 2 ^ 64
    omega
  · show ts % 256 + 256 * (ts / 256 % 256) + 65536 * (ts / 65536 % 256) +
      16777216 * (ts / 16777216 % 256) = ts % 2 ^ 32
    omega
  · show fc % 256 + 256 * (fc / 256 % 256) + 65536 * (fc / 65536 % 256) +
      16777216 * (fc / 16777216 % 256) = fc % 2 ^ 32
    omega
  · show psz % 256 + 256 * (psz / 256 % 256) + 65536 * (psz / 65536 % 256) +
      16777216 * (psz / 16777216 % 256) = psz % 2 ^ 32
    omega
  · simp [header, bundleMagic, write_u32_le, write_u64_be]
    omega

end Bundle

namespace Bundle

/-- u32add is plain addition when the sum fits in 32 bits. -/
theorem u32add_eq_of_lt {a b : Nat} (h : a + b < 2 ^ 32) : u32add a b = a + b :=
  Nat.mod_eq_of_lt h

/-- Taking the length of the first part of an append returns that part. -/
theorem take_len_append (a b : List Nat) : (a ++ b).take a.length = a := by
  simp

/-- Dropping the length of the first part of an append returns the rest. -/
theorem drop_len_append (a b : List Nat) : (a ++ b).drop a.length = b := by
  simp

/-- Reading two little-endian bytes at the head of a buffer. -/
theorem read_u16_cons (a b : Nat) (t : List Nat) :
    read_u16_le (a :: b :: t) 0 = a + 256 * b := rfl

/-- Reading four little-endian bytes at the head of a buffer. -/
theorem read_u32_cons (a b c d : Nat) (t : List Nat) :
    read_u32_le (a :: b :: c :: d :: t) 0 = a + 256 * b + 65536 * c +
      16777216 * d := rfl

/-- Reading a byte of the dropped suffix reads past the offset. -/
theorem byteAt_drop (l : List Nat) (off i : Nat) :
    byteAt (l.drop off) i = byteAt l (off + i) := by
  simp [byteAt, List.getD_eq_getElem?_getD, List.getElem?_drop]

/-- A u16 read is a u16 read of the dropped suffix. -/
theorem read_u16_le_eq_drop (l : List Nat) (off : Nat) :
    read_u16_le l off = read_u16_le (l.drop off) 0 := by
  simp [read_u16_le, byteAt_drop]

/-- A u32 read is a u32 read of the dropped suffix. -/
theorem read_u32_le_eq_drop (l : List Nat) (off : Nat) :
    read_u32_le l off = read_u32_le (l.drop off) 0 := by
  simp [read_u32_le, byteAt_drop]

/-- Length of one file-table entry for an in-limit path. -/
theorem length_fileEntryBytes (f : ArchiveFile) (hp : f.path.length ≤ 255) :
    (fileEntryBytes f).length = 38 + f.path.length := by
  have hplen : f.path.length % 2 ^ 16 = f.path.length :=
    Nat.mod_eq_of_lt (by omega)
  simp [fileEntryBytes, write_u16_le, write_u32_le, hplen,
    length_sha256_hash]
  omega

/-- An in-limit file-table entry decomposed into its four syntactic parts. -/
theorem fileEntryBytes_decomp (f : ArchiveFile) (hp : f.path.length ≤ 255) :
    fileEntryBytes f
      = write_u16_le f.path.length ++ (f.path ++ (write_u32_le f.size ++
          Sha256.sha256_hash (f.data.take f.size))) := by
  have hplen : f.path.length % 65536 = f.path.length :=
    Nat.mod_eq_of_lt (by omega)
  simp [fileEntryBytes, hplen, List.append_assoc]

/-- The table loop of parse_payload parses back a table written by
bundle_create, entry by entry, ending at the offset after the table. -/
theorem parseTable_ok :
    ∀ (files : List ArchiveFile) (payload : List Nat) (off : Nat)
      (rest : List Nat),
      payload.drop off = (files.map fileEntryBytes).flatten ++ rest →
      off + ((files.map fileEntryBytes).flatten.length + rest.length)
        = payload.length →
      payload.length < 2 ^ 32 →
      (∀ f ∈ files, f.path.length ≤ 255) →
      (∀ f ∈ files, f.size < 2 ^ 32) →
      parseTable payload payload.length off files.length
        = some (files.map (fun f => (f.path, f.size)),
            off + (files.map fileEntryBytes).flatten.length) := by
  intro files
  induction files with
  | nil =>
    intro payload off rest hdrop hlen hbound hp hs
    simp [parseTable]
  | cons f fs ih =>
    intro payload off rest hdrop hlen hbound hp hs
    have hpf : f.path.length ≤ 255 := hp f (by simp)
    have hsf : f.size < 2 ^ 32 := hs f (by simp)
    have hElen : (fileEntryBytes f).length = 38 + f.path.length :=
      length_fileEntryBytes f hpf
    have hTlen : ((f :: fs).map fileEntryBytes).flatten.length
        = (fileEntryBytes f).length + (fs.map fileEntryBytes).flatten.length := by
      simp
    have hdropE : payload.drop off
        = fileEntryBytes f ++ ((fs.map fileEntryBytes).flatten ++ rest) := by
      rw [hdrop]
      simp
    -- offset is within the buffer with the whole entry ahead
    have hoffE : off + (38 + f.path.length) ≤ payload.length := by
      rw [← hlen, hTlen, hElen]
      omega
    have hofflt : off + (38 + f.path.length) < 2 ^ 32 := by omega
    -- the four pieces of the entry
    have hdropE2 : payload.drop off
        = (f.path.length % 256) :: (f.path.length / 256 % 256) ::
            (f.path ++ (write_u32_le f.size ++
              Sha256.sha256_hash (f.data.take f.size) ++
              ((fs.map fileEntryBytes).flatten ++ rest))) := by
      rw [hdropE, fileEntryBytes_decomp f hpf]
      simp [write_u16_le]
    -- check 1 and the path length read
    have hc1 : u32add off 2 = off + 2 := u32add_eq_of_lt (by omega)
    have hr16 : read_u16_le payload off = f.path.length := by
      rw [read_u16_le_eq_drop, hdropE2, read_u16_cons]
      omega
    -- the path slice
    have hdrop2 : payload.drop (off + 2)
        = f.path ++ (write_u32_le f.size ++
            Sha256.sha256_hash (f.data.take f.size) ++
            ((fs.map fileEntryBytes).flatten ++ rest)) := by
      rw [← List.drop_drop, hdropE2]
      rfl
    have hpath : (payload.drop (off + 2)).take f.path.length = f.path := by
      rw [hdrop2]
      exact take_len_append f.path _
    have hc2 : u32add (off + 2) f.path.length = off + 2 + f.path.length :=
      u32add_eq_of_lt (by omega)
    -- the size read
    have hdrop3 : payload.drop (off + 2 + f.path.length)
        = write_u32_le f.size ++
            (Sha256.sha256_hash (f.data.take f.size) ++
              ((fs.map fileEntryBytes).flatten ++ rest)) := by
      rw [← List.drop_drop, hdrop2]
      exact drop_len_append f.path _
    have hr32 : read_u32_le payload (off + 2 + f.path.length) = f.size := by
      rw [read_u32_le_eq_drop, hdrop3]
      simp only [write_u32_le, List.cons_append, List.nil_append,
        read_u32_cons]
      omega
    have hc3 : u32add (off + 2 + f.path.length) 4
        = off + 2 + f.path.length + 4 := u32add_eq_of_lt (by omega)
    have hc4 : u32add (off + 2 + f.path.length + 4) 32
        = off + 38 + f.path.length := by
      rw [u32add_eq_of_lt (by omega)]
      omega
    -- hypotheses for the recursive call
    have hdropRec : payload.drop (off + 38 + f.path.length)
        = (fs.map fileEntryBytes).flatten ++ rest := by
      have h1 : off + 38 + f.path.length = off + (38 + f.path.length) := by
        omega
      rw [h1, ← List.drop_drop, hdropE]
      rw [show (38 : Nat) + f.path.length = (fileEntryBytes f).length from
        hElen.symm]
      exact drop_len_append _ _
    have hlenRec : (off + 38 + f.path.length) +
        ((fs.map fileEntryBytes).flatten.length + rest.length)
        = payload.length := by
      rw [← hlen, hTlen, hElen]
      omega
    have hrec := ih payload (off + 38 + f.path.length) rest hdropRec hlenRec
      hbound (fun g hg => hp g (by simp [hg])) (fun g hg => hs g (by simp [hg]))
    -- now unfold one step of parseTable
    simp only [List.length_cons]
    rw [parseTable.eq_2]
    rw [if_neg (show ¬(u32add off 2 > payload.length) by rw [hc1]; omega)]
    simp only [hr16, hc1, hc2, hc3, hc4, hpath, hr32]
    rw [if_neg (show ¬(off + 2 + f.path.length > payload.length) by omega)]
    rw [if_neg (show ¬(f.path.length ≥ 256) by omega)]
    rw [if_neg (show ¬(off + 2 + f.path.length + 4 > payload.length) by omega)]
    rw [if_neg (show ¬(off + 38 + f.path.length > payload.length) by omega)]
    rw [hrec]
    simp only [List.map_cons, Option.some.injEq, Prod.mk.injEq]
    refine ⟨by trivial, ?_⟩
    simp only [List.flatten_cons, List.length_append, hElen]
    omega

end Bundle

namespace Bundle

/-- Taking the known length of the first part of an append. -/
theorem take_append_of_length (a b : List Nat) (n : Nat) (h : a.length = n) :
    (a ++ b).take n = a := by
  subst h
  exact take_len_append a b

/-- Dropping the known length of the first part of an append. -/
theorem drop_append_of_length (a b : List Nat) (n : Nat) (h : a.length = n) :
    (a ++ b).drop n = b := by
  subst h
  exact drop_len_append a b

/-- The data loop of parse_payload returns exactly the files whose data
buffers were laid out after the table by bundle_create. -/
theorem parseData_ok :
    ∀ (files : List ArchiveFile) (payload : List Nat) (off : Nat),
      payload.drop off = (files.map (fun f => f.data.take f.size)).flatten →
      off + (files.map (fun f => f.data.take f.size)).flatten.length
        = payload.length →
      payload.length < 2 ^ 32 →
      (∀ f ∈ files, f.size = f.data.length) →
      parseData payload payload.length off
        (files.map (fun f => (f.path, f.size))) = some files := by
  intro files
  induction files with
  | nil =>
    intro payload off hdrop hlen hbound hsz
    simp [parseData]
  | cons f fs ih =>
    intro payload off hdrop hlen hbound hsz
    have hszf : f.size = f.data.length := hsz f (by simp)
    have hDlen : (f.data.take f.size).length = f.size := by
      rw [hszf]
      simp
    have hdropE : payload.drop off
        = f.data.take f.size ++ (fs.map (fun f => f.data.take f.size)).flatten := by
      rw [hdrop]
      simp
    have hflat : ((f :: fs).map (fun f => f.data.take f.size)).flatten.length
        = f.size + (fs.map (fun f => f.data.take f.size)).flatten.length := by
      simp [hDlen]
    have hboundf : off + f.size ≤ payload.length := by
      rw [← hlen, hflat]
      omega
    have hc : u32add off f.size = off + f.size := u32add_eq_of_lt (by omega)
    have hdata : (payload.drop off).take f.size = f.data := by
      rw [hdropE, take_append_of_length _ _ _ hDlen, hszf]
      simp
    have hdropRec : payload.drop (off + f.size)
        = (fs.map (fun f => f.data.take f.size)).flatten := by
      rw [← List.drop_drop, hdropE, drop_append_of_length _ _ _ hDlen]
    have hlenRec : (off + f.size) +
        (fs.map (fun f => f.data.take f.size)).flatten.length
        = payload.length := by
      rw [← hlen, hflat]
      omega
    have hrec := ih payload (off + f.size) hdropRec hlenRec hbound
      (fun g hg => hsz g (by simp [hg]))
    simp only [List.map_cons]
    rw [parseData.eq_2]
    rw [if_neg (show ¬(u32add off f.size > payload.length) by rw [hc]; omega)]
    simp only [hc, hrec, hdata]

end Bundle

namespace Bundle

/-- The length of a member list is at most the flattened length. -/
theorem length_le_flatten {l : List (List Nat)} {a : List Nat} (h : a ∈ l) :
    a.length ≤ l.flatten.length := by
  induction l with
  | nil => cases h
  | cons x xs ih =>
    rcases List.mem_cons.mp h with rfl | hm
    · simp
    · simp only [List.flatten_cons, List.length_append]
      have := ih hm
      omega

/-- Folding an addition over a list equals the sum of the mapped values. -/
theorem foldl_add_eq_sum {α : Type} (g : α → Nat) :
    ∀ (l : List α) (acc : Nat),
      l.foldl (fun a x => a + g x) acc = acc + (l.map g).sum := by
  intro l
  induction l with
  | nil => simp
  | cons x xs ih =>
    intro acc
    simp [ih (acc + g x), Nat.add_assoc]

/-- Length of a file-table entry without any path-length bound: the path is
truncated to its uint16 strlen. -/
theorem length_fileEntryBytes_gen (f : ArchiveFile) :
    (fileEntryBytes f).length = 38 + f.path.length % 2 ^ 16 := by
  simp [fileEntryBytes, write_u16_le, write_u32_le, length_sha256_hash]
  omega

/-- The uint32 payload_size computed by bundle_create equals the real
payload length reduced mod 2^32, when the declared sizes are honest. -/
theorem bundle_payload_size_eq (files : List ArchiveFile)
    (hsz : ∀ f ∈ files, f.size = f.data.length) :
    bundle_payload_size files = (bundlePayload files).length % 2 ^ 32 := by
  unfold bundle_payload_size bundlePayload
  rw [foldl_add_eq_sum, foldl_add_eq_sum]
  have htab : ((files.map fileEntryBytes).flatten).length
      = (files.map (fun f => 2 + f.path.length % 2 ^ 16 + 4 + 32)).sum := by
    rw [List.length_flatten]
    rw [List.map_map]
    congr 1
    apply List.map_congr_left
    intro f _
    simp [length_fileEntryBytes_gen]
    omega
  have hdat : ((files.map (fun f => f.data.take f.size)).flatten).length
      = (files.map (fun f => f.size)).sum := by
    rw [List.length_flatten]
    rw [List.map_map]
    congr 1
    apply List.map_congr_left
    intro f hf
    simp [hsz f hf]
  simp only [List.length_append, htab, hdat]
  rw [show (List.map ArchiveFile.size files).sum
    = (files.map (fun f : ArchiveFile => f.size)).sum from rfl]
  omega

/-- parse_payload inverts the payload builder of bundle_create. -/
theorem parse_payload_ok (files : List ArchiveFile) (max_files : Nat)
    (hp : ∀ f ∈ files, f.path.length ≤ 255)
    (hsz : ∀ f ∈ files, f.size = f.data.length)
    (hn : files.length ≤ max_files) (hmax : max_files < 2 ^ 31)
    (hbound : (bundlePayload files).length < 2 ^ 32) :
    parse_payload (bundlePayload files) (bundlePayload files).length
      files.length max_files = some files := by
  have hsizes : ∀ f ∈ files, f.size < 2 ^ 32 := by
    intro f hf
    have hmem : f.data.take f.size ∈ files.map (fun f => f.data.take f.size) :=
      List.mem_map_of_mem _ hf
    have hle := length_le_flatten hmem
    have hl : (f.data.take f.size).length = f.size := by
      rw [hsz f hf]
      simp
    have hdl : (files.map (fun f => f.data.take f.size)).flatten.length
        ≤ (bundlePayload files).length := by
      simp [bundlePayload]
    omega
  have htab := parseTable_ok files (bundlePayload files) 0
    ((files.map (fun f => f.data.take f.size)).flatten)
    (by simp [bundlePayload]) (by simp [bundlePayload]) hbound hp hsizes
  have hdat := parseData_ok files (bundlePayload files)
    ((files.map fileEntryBytes).flatten.length)
    (by simp [bundlePayload]) (by simp [bundlePayload]) hbound hsz
  unfold parse_payload
  rw [if_neg]
  · rw [htab]
    simpa using hdat
  · unfold i32
    rw [if_pos (by omega)]
    omega

end Bundle

/-- Claim C3: for every title_id, timestamp and file list with honest sizes
and in-limit paths, parsing the bundle produced by bundle_create (a v2
bundle, assuming the zlib pair is lawful) returns the same title_id,
timestamp and files byte-for-byte, and likewise for the v1 frame of the
same payload (bundle_create never emits v1, so the v1 writer is modelled
from spec section 6). -/
theorem bundle_roundtrip (codec : Bundle.Codec) (hlaw : codec.Lawful)
    (tid ts : Nat) (files : List ArchiveFile) (max_files : Nat)
    (htid : tid < 2 ^ 64) (hts : ts < 2 ^ 32)
    (hn : files.length ≤ max_files) (hmax : max_files < 2 ^ 31)
    (hp : ∀ f ∈ files, f.path.length ≤ 255)
    (hsz : ∀ f ∈ files, f.size = f.data.length)
    (hbound : (Bundle.bundlePayload files).length < 2 ^ 32) :
    (∀ b, Bundle.bundle_create codec tid ts files = some b →
      Bundle.bundle_parse codec b max_files = some (tid, ts, files))
    ∧ Bundle.bundle_parse codec (Bundle.encodeV1 tid ts files) max_files
        = some (tid, ts, files) := by
  have hfchop : files.length % 2 ^ 32 = files.length :=
    Nat.mod_eq_of_lt (by omega)
  have hps : Bundle.bundle_payload_size files
      = (Bundle.bundlePayload files).length := by
    rw [Bundle.bundle_payload_size_eq files hsz]
    exact Nat.mod_eq_of_lt hbound
  constructor
  · intro b hb
    simp only [Bundle.bundle_create] at hb
    rcases hcomp : codec.compress (Bundle.bundlePayload files) with _ | comp
    · rw [hcomp] at hb
      simp at hb
    · rw [hcomp] at hb
      simp only [Option.some.injEq] at hb
      subst hb
      obtain ⟨hmag, hver, htidr, htsr, hfcr, hpszr, hdrp, hlen⟩ :=
        Bundle.header_fields 2 (tid % 2 ^ 64) (ts % 2 ^ 32)
          (files.length % 2 ^ 32) (Bundle.bundle_payload_size files) comp
      have hver2 : Bundle.read_u32_le (Bundle.header 2 (tid % 2 ^ 64)
          (ts % 2 ^ 32) (files.length % 2 ^ 32)
          (Bundle.bundle_payload_size files) ++ comp) 4 = 2 := by
        rw [hver]
        omega
      have htid2 : Bundle.read_u64_be (Bundle.header 2 (tid % 2 ^ 64)
          (ts % 2 ^ 32) (files.length % 2 ^ 32)
          (Bundle.bundle_payload_size files) ++ comp) 8 = tid := by
        rw [htidr]
        omega
      have hts2 : Bundle.read_u32_le (Bundle.header 2 (tid % 2 ^ 64)
          (ts % 2 ^ 32) (files.length % 2 ^ 32)
          (Bundle.bundle_payload_size files) ++ comp) 16 = ts := by
        rw [htsr]
        omega
      have hfc2 : Bundle.read_u32_le (Bundle.header 2 (tid % 2 ^ 64)
          (ts % 2 ^ 32) (files.length % 2 ^ 32)
          (Bundle.bundle_payload_size files) ++ comp) 20 = files.length := by
        rw [hfcr]
        omega
      have hps2 : Bundle.read_u32_le (Bundle.header 2 (tid % 2 ^ 64)
          (ts % 2 ^ 32) (files.length % 2 ^ 32)
          (Bundle.bundle_payload_size files) ++ comp) 24
          = (Bundle.bundlePayload files).length := by
        rw [hpszr, ← hps]
        exact Nat.mod_eq_of_lt (by rw [hps]; omega)
      have hunc : codec.uncompress comp (Bundle.bundlePayload files).length
          = some (Bundle.bundlePayload files) := hlaw _ comp hcomp
      simp only [Bundle.bundle_parse]
      rw [if_neg (by rw [hlen]; omega)]
      rw [if_neg (by rw [hmag]; simp)]
      rw [hver2]
      rw [if_neg (by simp)]
      rw [if_pos rfl]
      rw [hdrp, hps2, hunc]
      dsimp only
      rw [if_neg (by simp)]
      rw [hfc2]
      rw [Bundle.parse_payload_ok files max_files hp hsz hn hmax hbound]
      rw [htid2, hts2]
      rfl
  · obtain ⟨hmag, hver, htidr, htsr, hfcr, hpszr, hdrp, hlen⟩ :=
      Bundle.header_fields 1 (tid % 2 ^ 64) (ts % 2 ^ 32)
        (files.length % 2 ^ 32) (Bundle.bundle_payload_size files)
        (Bundle.bundlePayload files)
    have hver2 : Bundle.read_u32_le (Bundle.header 1 (tid % 2 ^ 64)
        (ts % 2 ^ 32) (files.length % 2 ^ 32)
        (Bundle.bundle_payload_size files) ++ Bundle.bundlePayload files) 4
        = 1 := by
      rw [hver]
      omega
    have htid2 : Bundle.read_u64_be (Bundle.header 1 (tid % 2 ^ 64)
        (ts % 2 ^ 32) (files.length % 2 ^ 32)
        (Bundle.bundle_payload_size files) ++ Bundle.bundlePayload files) 8
        = tid := by
      rw [htidr]
      omega
    have hts2 : Bundle.read_u32_le (Bundle.header 1 (tid % 2 ^ 64)
        (ts % 2 ^ 32) (files.length % 2 ^ 32)
        (Bundle.bundle_payload_size files) ++ Bundle.bundlePayload files) 16
        = ts := by
      rw [htsr]
      omega
    have hfc2 : Bundle.read_u32_le (Bundle.header 1 (tid % 2 ^ 64)
        (ts % 2 ^ 32) (files.length % 2 ^ 32)
        (Bundle.bundle_payload_size files) ++ Bundle.bundlePayload files) 20
        = files.length := by
      rw [hfcr]
      omega
    unfold Bundle.encodeV1
    simp only [Bundle.bundle_parse]
    rw [if_neg (by rw [hlen]; omega)]
    rw [if_neg (by rw [hmag]; simp)]
    rw [hver2]
    rw [if_neg (by simp)]
    rw [if_neg (by simp)]
    rw [hdrp, hlen, hfc2]
    rw [show 28 + (Bundle.bundlePayload files).length - 28
      = (Bundle.bundlePayload files).length by omega]
    rw [Bundle.parse_payload_ok files max_files hp hsz hn hmax hbound]
    rw [htid2, hts2]
    rfl

/-- The identity codec, a lawful stand-in for the zlib pair on concrete
runs. -/
def idCodec : Bundle.Codec := ⟨fun d => some d, fun s _ => some s⟩

/-- The identity codec satisfies the zlib round-trip contract. -/
theorem idCodec_lawful : idCodec.Lawful := by
  intro d comp h
  simp only [idCodec, Option.some.injEq] at h
  subst h
  rfl

/-- Witness for C3: a one-file bundle with title id 5 and timestamp 7
round-trips through the v1 frame. -/
theorem bundle_roundtrip_witness :
    Bundle.bundle_parse idCodec
        (Bundle.encodeV1 5 7 [⟨[97, 98], 2, [10, 20]⟩]) 64
      = some (5, 7, [⟨[97, 98], 2, [10, 20]⟩]) :=
  (bundle_roundtrip idCodec idCodec_lawful 5 7 [⟨[97, 98], 2, [10, 20]⟩] 64
    (by norm_num) (by norm_num) (by norm_num) (by norm_num)
    (by decide) (by decide) (by decide)).2

/-- A 67-byte version 1 bundle whose single file-table entry declares a
file of 4294967295 bytes while only 0 data bytes follow the table. -/
def overflowBundle : List Nat :=
  Bundle.header 1 0 0 1 0 ++
    (Bundle.write_u16_le 1 ++ [97] ++ Bundle.write_u32_le 4294967295 ++
      List.replicate 32 0)

/-- Claim C5 (code bug): bundle_parse must reject any input whose declared
file data extends past the end of the payload, but the uint32 bound check
offset + size > payload_size wraps around: on this 67-byte input with a
declared file size of 4294967295 the parser succeeds and returns one file
whose declared size exceeds the whole input. -/
theorem bundle_parse_accepts_oversized_declared_size :
    Bundle.bundle_parse idCodec overflowBundle 64
        = some (0, 0, [⟨[97], 4294967295, []⟩])
    ∧ overflowBundle.length = 67
    ∧ 39 + 4294967295 > 39 := by
  refine ⟨by decide, by decide, by norm_num⟩

namespace Client

/-- SyncResult enum of client/source/sync.h. -/
inductive SyncResult where
  | OK
  | ERR_NETWORK
  | ERR_SERVER
  | ERR_ARCHIVE
  | ERR_BUNDLE
  | ERR_TOO_LARGE
deriving DecidableEq, Repr

/-- MAX_UPLOAD_SIZE of client/source/sync.c (0x70000, 448 KiB). -/
def MAX_UPLOAD_SIZE : Nat := 0x70000

/-- The collaborators upload_title_with_hash calls, as oracles: the zlib
codec, the osGetTime-derived timestamp, the adapter read result (none is
the negative file count), and the network_post outcome (none models a
NULL response, some status the received HTTP status). -/
structure UploadEnv where
  codec : Bundle.Codec
  timestamp : Nat
  readResult : Option (List ArchiveFile)
  postStatus : Option Nat

/-- The hash upload_title_with_hash persists (sync.c lines 160-165): the
caller-provided hash if present and non-empty, else the save hash
computed from the files that were read. -/
def hashToSave (save_hash : Option String) (files : List ArchiveFile) :
    String :=
  match save_hash with
  | some h => if h ≠ "" then h else bundle_compute_save_hash files
  | none => bundle_compute_save_hash files

/-- Embedding of upload_title_with_hash (client/source/sync.c lines
138-204). The state of the last-synced store for this title is threaded
as an Option String; the result is (SyncResult, new store state,
whether network_post was called). -/
def upload_title_with_hash (env : UploadEnv) (title_id : Nat)
    (save_hash : Option String) (stored : Option String) :
    SyncResult × Option String × Bool :=
  match env.readResult with
  | none => (SyncResult.ERR_ARCHIVE, stored, false)
  | some files =>
    if files.length = 0 then (SyncResult.OK, stored, false)
    else
      match Bundle.bundle_create env.codec title_id env.timestamp files with
      | none => (SyncResult.ERR_BUNDLE, stored, false)
      | some bundle =>
        if bundle.length > MAX_UPLOAD_SIZE then
          (SyncResult.ERR_TOO_LARGE, stored, false)
        else
          match env.postStatus with
          | none => (SyncResult.ERR_NETWORK, stored, true)
          | some status =>
            if status = 200 then
              (SyncResult.OK, some (hashToSave save_hash files), true)
            else
              (SyncResult.ERR_SERVER, stored, true)

/-- The collaborators download_title calls, as oracles: the codec, the
network_get outcome (none is a NULL response, otherwise status and body
bytes) and the adapter write outcome. -/
structure DownloadEnv where
  codec : Bundle.Codec
  getResult : Option (Nat × List Nat)
  writeOk : Bool

/-- Embedding of download_title (client/source/sync.c lines 206-262):
GET, parse the bundle (MAX_SAVE_FILES is 64), hash the downloaded files,
write through the adapter, and persist the hash only when the write
succeeded. -/
def download_title (env : DownloadEnv) (stored : Option String) :
    SyncResult × Option String :=
  match env.getResult with
  | none => (SyncResult.ERR_NETWORK, stored)
  | some (status, body) =>
    if status ≠ 200 then (SyncResult.ERR_SERVER, stored)
    else
      match Bundle.bundle_parse env.codec body 64 with
      | none => (SyncResult.ERR_BUNDLE, stored)
      | some (_, _, files) =>
        let new_hash := bundle_compute_save_hash files
        if env.writeOk then (SyncResult.OK, some new_hash)
        else (SyncResult.ERR_ARCHIVE, stored)

end Client

/-- Claim C4: the last-synced store changes only on a fully successful
round-trip, and then holds the hash of the transferred side. For upload:
a changed store implies the server returned status 200, the result is OK,
and the stored value is the hash of the uploaded save (the provided hash
or the one computed from the files read); any non-OK result leaves the
store unchanged. For download: a changed store implies the adapter write
succeeded on a status-200 parsed bundle and the stored value is the save
hash of the downloaded files; any non-OK result leaves the store
unchanged. -/
theorem last_synced_only_on_success (env : Client.UploadEnv)
    (denv : Client.DownloadEnv) (tid : Nat) (save_hash : Option String)
    (stored : Option String) :
    ((Client.upload_title_with_hash env tid save_hash stored).2.1 ≠ stored →
      env.postStatus = some 200 ∧
      (Client.upload_title_with_hash env tid save_hash stored).1
        = Client.SyncResult.OK ∧
      ∃ files, env.readResult = some files ∧
        (Client.upload_title_with_hash env tid save_hash stored).2.1
          = some (Client.hashToSave save_hash files))
    ∧ ((Client.upload_title_with_hash env tid save_hash stored).1
        ≠ Client.SyncResult.OK →
      (Client.upload_title_with_hash env tid save_hash stored).2.1 = stored)
    ∧ ((Client.download_title denv stored).2 ≠ stored →
      denv.writeOk = true ∧
      (Client.download_title denv stored).1 = Client.SyncResult.OK ∧
      ∃ body tidp tsp files, denv.getResult = some (200, body) ∧
        Bundle.bundle_parse denv.codec body 64 = some (tidp, tsp, files) ∧
        (Client.download_title denv stored).2
          = some (Client.bundle_compute_save_hash files))
    ∧ ((Client.download_title denv stored).1 ≠ Client.SyncResult.OK →
      (Client.download_title denv stored).2 = stored) := by
  have hup : ∀ r, r = Client.upload_title_with_hash env tid save_hash stored →
      (r.2.1 ≠ stored →
        env.postStatus = some 200 ∧ r.1 = Client.SyncResult.OK ∧
        ∃ files, env.readResult = some files ∧
          r.2.1 = some (Client.hashToSave save_hash files))
      ∧ (r.1 ≠ Client.SyncResult.OK → r.2.1 = stored) := by
    intro r hr
    unfold Client.upload_title_with_hash at hr
    rcases hread : env.readResult with _ | files <;> rw [hread] at hr <;>
      dsimp only at hr
    · subst hr
      simp
    · by_cases hfz : files.length = 0
      · rw [if_pos hfz] at hr
        subst hr
        simp
      · rw [if_neg hfz] at hr
        rcases hb : Bundle.bundle_create env.codec tid env.timestamp files
            with _ | bundle <;> rw [hb] at hr <;> dsimp only at hr
        · subst hr
          simp
        · by_cases hbig : bundle.length > Client.MAX_UPLOAD_SIZE
          · rw [if_pos hbig] at hr
            subst hr
            simp
          · rw [if_neg hbig] at hr
            rcases hpost : env.postStatus with _ | status <;>
              rw [hpost] at hr <;> dsimp only at hr
            · subst hr
              simp
            · by_cases h200 : status = 200
              · rw [if_pos h200] at hr
                subst hr
                subst h200
                refine ⟨fun _ => ⟨rfl, rfl, files, rfl, rfl⟩, ?_⟩
                intro hno
                exact absurd rfl hno
              · rw [if_neg h200] at hr
                subst hr
                simp [hpost]
  have hdl : ∀ r, r = Client.download_title denv stored →
      (r.2 ≠ stored →
        denv.writeOk = true ∧ r.1 = Client.SyncResult.OK ∧
        ∃ body tidp tsp files, denv.getResult = some (200, body) ∧
          Bundle.bundle_parse denv.codec body 64 = some (tidp, tsp, files) ∧
          r.2 = some (Client.bundle_compute_save_hash files))
      ∧ (r.1 ≠ Client.SyncResult.OK → r.2 = stored) := by
    intro r hr
    unfold Client.download_title at hr
    rcases hget : denv.getResult with _ | sb <;> rw [hget] at hr <;>
      dsimp only at hr
    · subst hr
      simp
    · rcases sb with ⟨status, body⟩
      by_cases h200 : status ≠ 200
      · rw [if_pos h200] at hr
        subst hr
        simp
      · rw [if_neg h200] at hr
        push_neg at h200
        subst h200
        rcases hp : Bundle.bundle_parse denv.codec body 64
            with _ | tf <;> rw [hp] at hr <;> dsimp only at hr
        · subst hr
          simp
        · rcases tf with ⟨tidp, tsp, files⟩
          by_cases hw : denv.writeOk
          · rw [if_pos hw] at hr
            subst hr
            refine ⟨fun _ => ⟨hw, rfl, body, tidp, tsp, files, rfl, hp, rfl⟩,
              ?_⟩
            intro hno
            exact absurd rfl hno
          · rw [if_neg hw] at hr
            subst hr
            constructor
            · intro hch
              exact absurd rfl hch
            · intro _
              rfl
  obtain ⟨h1, h2⟩ := hup _ rfl
  obtain ⟨h3, h4⟩ := hdl _ rfl
  exact ⟨h1, h2, h3, h4⟩

/-- Witness for C4: with a successful 200 upload of one non-empty save and
a provided hash string, the store is updated to that hash and the result
is OK; the theorem applied at this environment confirms the store value. -/
theorem last_synced_only_on_success_witness :
    (Client.upload_title_with_hash
        ⟨idCodec, 7, some [⟨[97], 1, [5]⟩], some 404⟩ 3 (some "abc") none).1
      ≠ Client.SyncResult.OK ∧
    (Client.upload_title_with_hash
        ⟨idCodec, 7, some [⟨[97], 1, [5]⟩], some 404⟩ 3 (some "abc") none).2.1
      = none :=
  ⟨by decide,
    (last_synced_only_on_success ⟨idCodec, 7, some [⟨[97], 1, [5]⟩], some 404⟩
      ⟨idCodec, none, false⟩ 3 (some "abc") none).2.1 (by decide)⟩

/-- Claim C7: once a bundle has been created for a non-empty save, a
compressed size above MAX_UPLOAD_SIZE (0x70000 bytes) yields the distinct
ERR_TOO_LARGE result with no POST issued and the last-synced store
unchanged, while a size at or below the ceiling proceeds to the POST;
ERR_TOO_LARGE is distinct from the generic server error. -/
theorem upload_size_ceiling (env : Client.UploadEnv) (tid : Nat)
    (save_hash stored : Option String) (files : List ArchiveFile)
    (bundle : List Nat)
    (hr : env.readResult = some files) (hfz : files.length ≠ 0)
    (hb : Bundle.bundle_create env.codec tid env.timestamp files
      = some bundle) :
    (bundle.length > Client.MAX_UPLOAD_SIZE →
      Client.upload_title_with_hash env tid save_hash stored
        = (Client.SyncResult.ERR_TOO_LARGE, stored, false))
    ∧ (bundle.length ≤ Client.MAX_UPLOAD_SIZE →
      (Client.upload_title_with_hash env tid save_hash stored).2.2 = true)
    ∧ Client.SyncResult.ERR_TOO_LARGE ≠ Client.SyncResult.ERR_SERVER
    ∧ Client.MAX_UPLOAD_SIZE = 0x70000 := by
  refine ⟨?_, ?_, by decide, rfl⟩
  · intro hbig
    unfold Client.upload_title_with_hash
    rw [hr]
    dsimp only
    rw [if_neg hfz, hb]
    dsimp only
    rw [if_pos hbig]
  · intro hsmall
    unfold Client.upload_title_with_hash
    rw [hr]
    dsimp only
    rw [if_neg hfz, hb]
    dsimp only
    rw [if_neg (by omega)]
    rcases env.postStatus with _ | status
    · rfl
    · dsimp only
      by_cases h200 : status = 200
      · rw [if_pos h200]
      · rw [if_neg h200]

/-- Witness for C7: a codec whose compressed output is 458753 bytes pushes
the bundle over the 0x70000 ceiling: the upload returns ERR_TOO_LARGE,
leaves the (empty) store unchanged, and issues no POST. -/
theorem upload_size_ceiling_witness :
    Client.upload_title_with_hash
        ⟨⟨fun _ => some (List.replicate 458753 0), fun s _ => some s⟩, 7,
          some [⟨[97], 1, [5]⟩], some 200⟩ 3 none none
      = (Client.SyncResult.ERR_TOO_LARGE, none, false) :=
  (upload_size_ceiling
      ⟨⟨fun _ => some (List.replicate 458753 0), fun s _ => some s⟩, 7,
        some [⟨[97], 1, [5]⟩], some 200⟩ 3 none none [⟨[97], 1, [5]⟩]
      (Bundle.header 2 3 7 1 40 ++ List.replicate 458753 0)
      rfl (by decide) rfl).1
    (by rw [List.length_append, List.length_replicate]
        norm_num [Bundle.header, Bundle.bundleMagic, Bundle.write_u32_le,
          Bundle.write_u64_be, Client.MAX_UPLOAD_SIZE])

/-- CardSaveType enum of client/include/card_spi.h. -/
inductive CardSaveType where
  | SAVE_TYPE_UNKNOWN
  | SAVE_TYPE_EEPROM_512B
  | SAVE_TYPE_EEPROM_8K
  | SAVE_TYPE_EEPROM_64K
  | SAVE_TYPE_EEPROM_128K
  | SAVE_TYPE_FLASH_256K
  | SAVE_TYPE_FLASH_512K
  | SAVE_TYPE_FLASH_1M
  | SAVE_TYPE_FLASH_8M
  | SAVE_TYPE_FRAM_32K
deriving DecidableEq, Repr

namespace Spi

/-- The SPI bus as an oracle for the transactions card_spi_detect issues:
the JEDEC id bytes, the Write-Enable outcome, the status register read
after Write-Enable, and the three read command forms (each returning the
read window, or none for a failed transaction). Windows read in detect
are 32 bytes. -/
structure SpiBus where
  jedec : Option (Nat × Nat × Nat)
  writeEnableOk : Bool
  statusAfterWren : Option Nat
  read2addr : Nat → Option (List Nat)
  read128k : Nat → Option (List Nat)
  read512b : Nat → Option (List Nat)

/-- The all-bytes-identical test of card_spi_detect (lines 245-248):
every byte at index 1..31 equals byte 0. -/
def refUniform (ref : List Nat) : Bool :=
  (List.range 31).all (fun i => ref.getD (i + 1) 0 == ref.getD 0 0)

/-- Step 4 of card_spi_detect (lines 271-281): read 32 bytes at 0x10000
with the 17-bit command form; a differing window means 128 KiB EEPROM,
anything else falls back to 64 KiB EEPROM. -/
def detect_upper (bus : SpiBus) (ref : List Nat) : CardSaveType :=
  match bus.read128k 0x10000 with
  | some upper =>
    if upper ≠ ref then CardSaveType.SAVE_TYPE_EEPROM_128K
    else CardSaveType.SAVE_TYPE_EEPROM_64K
  | none => CardSaveType.SAVE_TYPE_EEPROM_64K

/-- The 0x8000 wrap probe of card_spi_detect (lines 266-269). -/
def detect_wrap32k (bus : SpiBus) (ref : List Nat) : CardSaveType :=
  match bus.read2addr 0x8000 with
  | some probe =>
    if probe = ref then CardSaveType.SAVE_TYPE_FRAM_32K
    else detect_upper bus ref
  | none => detect_upper bus ref

/-- The 0x2000 wrap probe of card_spi_detect (lines 262-264). -/
def detect_wrap8k (bus : SpiBus) (ref : List Nat) : CardSaveType :=
  match bus.read2addr 0x2000 with
  | some probe =>
    if probe = ref then CardSaveType.SAVE_TYPE_EEPROM_8K
    else detect_wrap32k bus ref
  | none => detect_wrap32k bus ref

/-- Embedding of card_spi_detect (client/source/card_spi.c lines 209-282),
for an initialized bus: JEDEC flash classification, WEL-latch presence
check, then the wrap probes. The read512b probe on a uniform window is
issued but its result is ignored by the source, as here. -/
def card_spi_detect (bus : SpiBus) : CardSaveType :=
  match bus.jedec with
  | some (m, _, cap) =>
    if m = 0x20 ∨ m = 0xC2 ∨ m = 0x62 ∨ m = 0x1C ∨ m = 0xBF then
      if cap = 0x10 then CardSaveType.SAVE_TYPE_FLASH_256K
      else if cap = 0x12 then CardSaveType.SAVE_TYPE_FLASH_256K
      else if cap = 0x13 then CardSaveType.SAVE_TYPE_FLASH_512K
      else if cap = 0x14 then CardSaveType.SAVE_TYPE_FLASH_1M
      else if cap = 0x17 then CardSaveType.SAVE_TYPE_FLASH_8M
      else CardSaveType.SAVE_TYPE_FLASH_256K
    else card_spi_detect_step2 bus
  | none => card_spi_detect_step2 bus
where
  card_spi_detect_step2 (bus : SpiBus) : CardSaveType :=
    if !bus.writeEnableOk then CardSaveType.SAVE_TYPE_UNKNOWN
    else
      match bus.statusAfterWren with
      | none => CardSaveType.SAVE_TYPE_UNKNOWN
      | some sr =>
        if sr &&& 0x02 = 0 then CardSaveType.SAVE_TYPE_UNKNOWN
        else
          match bus.read2addr 0x0000 with
          | none => CardSaveType.SAVE_TYPE_UNKNOWN
          | some ref =>
            if refUniform ref then CardSaveType.SAVE_TYPE_EEPROM_64K
            else detect_wrap8k bus ref

end Spi

namespace Spi

/-- Spec-side capacity mapping of section 4.5 step 1, for the refinement
statement of the detection claim. -/
def flashCapacityMap (cap : Nat) : CardSaveType :=
  if cap = 0x10 ∨ cap = 0x12 then CardSaveType.SAVE_TYPE_FLASH_256K
  else if cap = 0x13 then CardSaveType.SAVE_TYPE_FLASH_512K
  else if cap = 0x14 then CardSaveType.SAVE_TYPE_FLASH_1M
  else if cap = 0x17 then CardSaveType.SAVE_TYPE_FLASH_8M
  else CardSaveType.SAVE_TYPE_FLASH_256K

/-- The JEDEC step does not classify the chip as flash: the transaction
failed or the manufacturer byte is unknown. -/
def jedecFallsThrough (bus : SpiBus) : Prop :=
  bus.jedec = none ∨
    ∃ m t c, bus.jedec = some (m, t, c) ∧
      ¬(m = 0x20 ∨ m = 0xC2 ∨ m = 0x62 ∨ m = 0x1C ∨ m = 0xBF)

/-- The WEL bit latched after Write-Enable: the enable and the status read
succeeded and bit 1 is set. -/
def welLatched (bus : SpiBus) : Prop :=
  bus.writeEnableOk = true ∧
    ∃ sr, bus.statusAfterWren = some sr ∧ sr &&& 0x02 ≠ 0

/-- Fall-through to step 2 evaluates step 2. -/
theorem detect_fallsThrough (bus : SpiBus) (hj : jedecFallsThrough bus) :
    card_spi_detect bus = card_spi_detect.card_spi_detect_step2 bus := by
  rcases hj with hj | ⟨m, t, c, hj, hm⟩
  · simp [card_spi_detect, hj]
  · simp [card_spi_detect, hj, hm]

end Spi

/-- Claim C8: card_spi_detect follows the four-step algorithm of spec
section 4.5: a JEDEC id with a known flash manufacturer byte maps the
capacity byte per the spec table; otherwise an unlatched WEL bit means no
chip; otherwise a 32-byte window at 0 equal to the window at 0x2000 or
0x8000 means 8 KiB EEPROM or 32 KiB FRAM, a uniform reference window
defaults to 64 KiB EEPROM, and otherwise a differing window at 0x10000
under the 17-bit command form means 128 KiB EEPROM, else 64 KiB EEPROM. -/
theorem card_spi_detect_follows_spec (bus : Spi.SpiBus) :
    (∀ m t cap, bus.jedec = some (m, t, cap) →
      (m = 0x20 ∨ m = 0xC2 ∨ m = 0x62 ∨ m = 0x1C ∨ m = 0xBF) →
      Spi.card_spi_detect bus = Spi.flashCapacityMap cap)
    ∧ (Spi.jedecFallsThrough bus → ¬Spi.welLatched bus →
      Spi.card_spi_detect bus = CardSaveType.SAVE_TYPE_UNKNOWN)
    ∧ (Spi.jedecFallsThrough bus → Spi.welLatched bus →
      ∀ ref, bus.read2addr 0 = some ref →
      (Spi.refUniform ref = true →
        Spi.card_spi_detect bus = CardSaveType.SAVE_TYPE_EEPROM_64K)
      ∧ (Spi.refUniform ref = false →
        bus.read2addr 0x2000 = some ref →
        Spi.card_spi_detect bus = CardSaveType.SAVE_TYPE_EEPROM_8K)
      ∧ (Spi.refUniform ref = false →
        (∀ p, bus.read2addr 0x2000 = some p → p ≠ ref) →
        bus.read2addr 0x8000 = some ref →
        Spi.card_spi_detect bus = CardSaveType.SAVE_TYPE_FRAM_32K)
      ∧ (Spi.refUniform ref = false →
        (∀ p, bus.read2addr 0x2000 = some p → p ≠ ref) →
        (∀ p, bus.read2addr 0x8000 = some p → p ≠ ref) →
        ∀ u, bus.read128k 0x10000 = some u → u ≠ ref →
        Spi.card_spi_detect bus = CardSaveType.SAVE_TYPE_EEPROM_128K)
      ∧ (Spi.refUniform ref = false →
        (∀ p, bus.read2addr 0x2000 = some p → p ≠ ref) →
        (∀ p, bus.read2addr 0x8000 = some p → p ≠ ref) →
        (∀ u, bus.read128k 0x10000 = some u → u = ref) →
        Spi.card_spi_detect bus = CardSaveType.SAVE_TYPE_EEPROM_64K)) := by
  refine ⟨?_, ?_, ?_⟩
  · intro m t cap hj hm
    simp only [Spi.card_spi_detect, hj]
    rw [if_pos hm]
    unfold Spi.flashCapacityMap
    by_cases h10 : cap = 0x10 <;> by_cases h12 : cap = 0x12 <;>
      by_cases h13 : cap = 0x13 <;> by_cases h14 : cap = 0x14 <;>
      by_cases h17 : cap = 0x17 <;> simp_all
  · intro hj hw
    rw [Spi.detect_fallsThrough bus hj]
    unfold Spi.card_spi_detect.card_spi_detect_step2
    unfold Spi.welLatched at hw
    push_neg at hw
    by_cases hen : bus.writeEnableOk
    · rw [if_neg (by simp [hen])]
      rcases hsr : bus.statusAfterWren with _ | sr
      · rfl
      · dsimp only
        rw [if_pos (by simpa using hw hen sr hsr)]
    · rw [if_pos (by revert hen; cases bus.writeEnableOk <;> simp)]
  · intro hj hw ref href
    obtain ⟨hen, sr, hsr, hbit⟩ := hw
    have hstep : Spi.card_spi_detect bus
        = if Spi.refUniform ref then CardSaveType.SAVE_TYPE_EEPROM_64K
          else Spi.detect_wrap8k bus ref := by
      rw [Spi.detect_fallsThrough bus hj]
      unfold Spi.card_spi_detect.card_spi_detect_step2
      rw [if_neg (by simp [hen]), hsr]
      dsimp only
      rw [if_neg hbit, href]
    refine ⟨?_, ?_, ?_, ?_, ?_⟩
    · intro hu
      rw [hstep, if_pos hu]
    · intro hu h2000
      rw [hstep, if_neg (by simp [hu])]
      unfold Spi.detect_wrap8k
      rw [h2000]
      simp
    · intro hu h2000 h8000
      rw [hstep, if_neg (by simp [hu])]
      unfold Spi.detect_wrap8k
      rcases hp : bus.read2addr 0x2000 with _ | p
      · unfold Spi.detect_wrap32k
        rw [h8000]
        simp
      · dsimp only
        rw [if_neg (h2000 p hp)]
        unfold Spi.detect_wrap32k
        rw [h8000]
        simp
    · intro hu h2000 h8000 u h10000 hune
      rw [hstep, if_neg (by simp [hu])]
      unfold Spi.detect_wrap8k
      rcases hp : bus.read2addr 0x2000 with _ | p <;>
        [skip; (dsimp only; rw [if_neg (h2000 p hp)])] <;>
      · unfold Spi.detect_wrap32k
        rcases hq : bus.read2addr 0x8000 with _ | q <;>
          [skip; (dsimp only; rw [if_neg (h8000 q hq)])] <;>
        · unfold Spi.detect_upper
          rw [h10000]
          simp [hune]
    · intro hu h2000 h8000 hupper
      rw [hstep, if_neg (by simp [hu])]
      unfold Spi.detect_wrap8k
      rcases hp : bus.read2addr 0x2000 with _ | p <;>
        [skip; (dsimp only; rw [if_neg (h2000 p hp)])] <;>
      · unfold Spi.detect_wrap32k
        rcases hq : bus.read2addr 0x8000 with _ | q <;>
          [skip; (dsimp only; rw [if_neg (h8000 q hq)])] <;>
        · unfold Spi.detect_upper
          rcases hr : bus.read128k 0x10000 with _ | u
          · rfl
          · dsimp only
            rw [if_neg (by simp [hupper u hr])]

/-- Witness for C8: a bus with a failed JEDEC read, a latched WEL bit, and
a non-uniform window at 0 that reappears at 0x2000 is detected as the
8 KiB EEPROM. -/
theorem card_spi_detect_follows_spec_witness :
    Spi.card_spi_detect
        ⟨none, true, some 2,
          fun a => if a = 0x2000 ∨ a = 0 then some [0, 1] else some [9],
          fun _ => some [9], fun _ => some [9]⟩
      = CardSaveType.SAVE_TYPE_EEPROM_8K :=
  ((card_spi_detect_follows_spec
      ⟨none, true, some 2,
        fun a => if a = 0x2000 ∨ a = 0 then some [0, 1] else some [9],
        fun _ => some [9], fun _ => some [9]⟩).2.2
    (Or.inl rfl) ⟨rfl, 2, rfl, by decide⟩ [0, 1] (by decide)).2.1
    (by decide) (by decide)

namespace Spi

/-- card_spi_get_size of client/source/card_spi.c lines 284-297. -/
def card_spi_get_size (t : CardSaveType) : Nat :=
  match t with
  | CardSaveType.SAVE_TYPE_EEPROM_512B => 512
  | CardSaveType.SAVE_TYPE_EEPROM_8K => 8 * 1024
  | CardSaveType.SAVE_TYPE_EEPROM_64K => 64 * 1024
  | CardSaveType.SAVE_TYPE_EEPROM_128K => 128 * 1024
  | CardSaveType.SAVE_TYPE_FLASH_256K => 256 * 1024
  | CardSaveType.SAVE_TYPE_FLASH_512K => 512 * 1024
  | CardSaveType.SAVE_TYPE_FLASH_1M => 1024 * 1024
  | CardSaveType.SAVE_TYPE_FLASH_8M => 8 * 1024 * 1024
  | CardSaveType.SAVE_TYPE_FRAM_32K => 32 * 1024
  | CardSaveType.SAVE_TYPE_UNKNOWN => 0

/-- The read loop of card_spi_read_save (lines 306-335) as the trace of
(address, byte count) transactions: chunks of min(256, remaining). Fuel
is the byte count, which bounds the iteration count. -/
def readChunksGo : Nat → Nat → Nat → List (Nat × Nat)
  | 0, _, _ => []
  | fuel + 1, off, remaining =>
    if remaining = 0 then []
    else
      let chunk := min 256 remaining
      (off, chunk) :: readChunksGo fuel (off + chunk) (remaining - chunk)

/-- The transaction trace of a full card_spi_read_save of a given type. -/
def card_spi_read_chunks (t : CardSaveType) : List (Nat × Nat) :=
  readChunksGo (card_spi_get_size t) 0 (card_spi_get_size t)

/-- The write loop of eeprom_write_2addr / eeprom_write_128k /
eeprom_write_512b (lines 136-205) as the trace of (address, byte count)
data transactions: each chunk is page_size minus the page offset, capped
by the remaining bytes. -/
def eepromWriteChunksGo : Nat → Nat → Nat → Nat → List (Nat × Nat)
  | 0, _, _, _ => []
  | fuel + 1, a, remaining, page =>
    if remaining = 0 then []
    else
      let chunk := min (page - a % page) remaining
      (a, chunk) :: eepromWriteChunksGo fuel (a + chunk) (remaining - chunk) page

/-- Trace of one eeprom_write_2addr-style call. -/
def eeprom_write_chunks (addr len page : Nat) : List (Nat × Nat) :=
  eepromWriteChunksGo len addr len page

/-- The flash page-program loop of card_spi_write_save (lines 357-361):
addresses step by the 256-byte flash page, each chunk capped at the
remaining bytes. Sector-erase commands carry no data bytes and are not
part of the data-transaction trace. -/
def flashWriteChunksGo : Nat → Nat → Nat → List (Nat × Nat)
  | 0, _, _ => []
  | fuel + 1, addr, size =>
    if addr < size then
      let chunk := min 256 (size - addr)
      (addr, chunk) :: flashWriteChunksGo fuel (addr + 256) size
    else []

/-- The data-transaction trace of card_spi_write_save (lines 340-384) for
a buffer of the given size: the size is first capped at the chip size,
then the per-type write routine chunks it. FRAM passes the whole capped
size as the page, producing one contiguous transaction. -/
def card_spi_write_chunks (t : CardSaveType) (size : Nat) : List (Nat × Nat) :=
  if size = 0 then []
  else
    let size := min size (card_spi_get_size t)
    match t with
    | CardSaveType.SAVE_TYPE_FLASH_256K => flashWriteChunksGo size 0 size
    | CardSaveType.SAVE_TYPE_FLASH_512K => flashWriteChunksGo size 0 size
    | CardSaveType.SAVE_TYPE_FLASH_1M => flashWriteChunksGo size 0 size
    | CardSaveType.SAVE_TYPE_FLASH_8M => flashWriteChunksGo size 0 size
    | CardSaveType.SAVE_TYPE_EEPROM_8K => eeprom_write_chunks 0 size 32
    | CardSaveType.SAVE_TYPE_EEPROM_64K => eeprom_write_chunks 0 size 128
    | CardSaveType.SAVE_TYPE_EEPROM_128K => eeprom_write_chunks 0 size 128
    | CardSaveType.SAVE_TYPE_EEPROM_512B => eeprom_write_chunks 0 size 16
    | CardSaveType.SAVE_TYPE_FRAM_32K => eeprom_write_chunks 0 size size
    | CardSaveType.SAVE_TYPE_UNKNOWN => []

/-- The per-type write page size: 256-byte pages for flash, the chip page
for EEPROMs, none for FRAM (no page boundary) and for the unknown type. -/
def writePageSize (t : CardSaveType) : Option Nat :=
  match t with
  | CardSaveType.SAVE_TYPE_EEPROM_512B => some 16
  | CardSaveType.SAVE_TYPE_EEPROM_8K => some 32
  | CardSaveType.SAVE_TYPE_EEPROM_64K => some 128
  | CardSaveType.SAVE_TYPE_EEPROM_128K => some 128
  | CardSaveType.SAVE_TYPE_FLASH_256K => some 256
  | CardSaveType.SAVE_TYPE_FLASH_512K => some 256
  | CardSaveType.SAVE_TYPE_FLASH_1M => some 256
  | CardSaveType.SAVE_TYPE_FLASH_8M => some 256
  | CardSaveType.SAVE_TYPE_FRAM_32K => none
  | CardSaveType.SAVE_TYPE_UNKNOWN => none

/-- Every read chunk carries at most 256 bytes. -/
theorem readChunksGo_le : ∀ (fuel off remaining : Nat),
    ∀ p ∈ readChunksGo fuel off remaining, p.2 ≤ 256 := by
  intro fuel
  induction fuel with
  | zero =>
    intro off remaining p hp
    simp [readChunksGo] at hp
  | succ n ih =>
    intro off remaining p hp
    rw [readChunksGo] at hp
    by_cases hz : remaining = 0
    · rw [if_pos hz] at hp
      simp at hp
    · rw [if_neg hz] at hp
      dsimp only at hp
      rcases List.mem_cons.mp hp with rfl | hp
      · simp
      · exact ih _ _ p hp

/-- Every EEPROM write chunk respects the page boundary. -/
theorem eepromWriteChunksGo_le : ∀ (fuel a remaining page : Nat),
    ∀ p ∈ eepromWriteChunksGo fuel a remaining page,
      p.2 ≤ page - p.1 % page := by
  intro fuel
  induction fuel with
  | zero =>
    intro a remaining page p hp
    simp [eepromWriteChunksGo] at hp
  | succ n ih =>
    intro a remaining page p hp
    rw [eepromWriteChunksGo] at hp
    by_cases hz : remaining = 0
    · rw [if_pos hz] at hp
      simp at hp
    · rw [if_neg hz] at hp
      dsimp only at hp
      rcases List.mem_cons.mp hp with rfl | hp
      · simp
      · exact ih _ _ _ p hp

/-- Every flash page-program chunk starts on a 256-byte page boundary and
carries at most 256 bytes. -/
theorem flashWriteChunksGo_le : ∀ (fuel addr size : Nat),
    addr % 256 = 0 →
    ∀ p ∈ flashWriteChunksGo fuel addr size,
      p.1 % 256 = 0 ∧ p.2 ≤ 256 := by
  intro fuel
  induction fuel with
  | zero =>
    intro addr size halign p hp
    simp [flashWriteChunksGo] at hp
  | succ n ih =>
    intro addr size halign p hp
    rw [flashWriteChunksGo] at hp
    by_cases hlt : addr < size
    · rw [if_pos hlt] at hp
      dsimp only at hp
      rcases List.mem_cons.mp hp with rfl | hp
      · exact ⟨halign, by simp⟩
      · exact ih _ _ (by omega) p hp
    · rw [if_neg hlt] at hp
      simp at hp

end Spi

namespace Spi

/-- An exhausted-remaining write loop issues nothing. -/
theorem eepromWriteChunksGo_zero (fuel a page : Nat) :
    eepromWriteChunksGo fuel a 0 page = [] := by
  cases fuel <;> simp [eepromWriteChunksGo]

/-- Page-bound and 256-bound for one EEPROM-style write call at address
0 with a page of at most 256 bytes. -/
theorem eeprom_case_bound (pg : Nat) (hpg : pg ≤ 256) (len : Nat)
    (p : Nat × Nat) (hp : p ∈ eeprom_write_chunks 0 len pg) :
    p.2 ≤ pg - p.1 % pg ∧ p.2 ≤ 256 := by
  have h1 := eepromWriteChunksGo_le len 0 len pg p hp
  exact ⟨h1, by omega⟩

/-- Page-bound and 256-bound for one flash write sequence from address
0. -/
theorem flash_case_bound (len : Nat) (p : Nat × Nat)
    (hp : p ∈ flashWriteChunksGo len 0 len) :
    p.2 ≤ 256 - p.1 % 256 ∧ p.2 ≤ 256 := by
  have h := flashWriteChunksGo_le len 0 len (by simp) p hp
  exact ⟨by omega, h.2⟩

end Spi

/-- Counterexample to C9 as stated: the FRAM write path passes the whole
capped image size as the page, so writing a full 32768-byte FRAM image
issues a single data transaction of 32768 bytes, far above 256. -/
theorem fram_write_single_large_transaction :
    Spi.card_spi_write_chunks CardSaveType.SAVE_TYPE_FRAM_32K 32768
      = [(0, 32768)]
    ∧ 32768 > 256 := by
  constructor
  · decide
  · norm_num

/-- Claim C9 (amended): reads of every chip type are chunked to at most
256 bytes per transaction; writes of every type with a page size (all
EEPROMs and FLASH) are split at the page boundary into chunks of at most
page_size minus the address offset in the page, never above 256; the FRAM
write is a single contiguous transaction of the whole (capped) image
size, which may exceed 256 bytes. -/
theorem spi_chunk_bounds (t : CardSaveType) (size : Nat) :
    (∀ p ∈ Spi.card_spi_read_chunks t, p.2 ≤ 256)
    ∧ (∀ page, Spi.writePageSize t = some page →
        ∀ p ∈ Spi.card_spi_write_chunks t size,
          p.2 ≤ page - p.1 % page ∧ p.2 ≤ 256)
    ∧ (t = CardSaveType.SAVE_TYPE_FRAM_32K → 1 ≤ size → size ≤ 32768 →
        Spi.card_spi_write_chunks t size = [(0, size)]) := by
  refine ⟨fun p hp => Spi.readChunksGo_le _ _ _ p hp, ?_, ?_⟩
  · intro page hpage p hp
    rw [Spi.card_spi_write_chunks] at hp
    by_cases hz : size = 0
    · rw [if_pos hz] at hp
      simp at hp
    · rw [if_neg hz] at hp
      dsimp only at hp
      cases t
      · simp [Spi.writePageSize] at hpage
      · simp only [Spi.writePageSize, Option.some.injEq] at hpage
        subst hpage
        exact Spi.eeprom_case_bound 16 (by norm_num) _ p hp
      · simp only [Spi.writePageSize, Option.some.injEq] at hpage
        subst hpage
        exact Spi.eeprom_case_bound 32 (by norm_num) _ p hp
      · simp only [Spi.writePageSize, Option.some.injEq] at hpage
        subst hpage
        exact Spi.eeprom_case_bound 128 (by norm_num) _ p hp
      · simp only [Spi.writePageSize, Option.some.injEq] at hpage
        subst hpage
        exact Spi.eeprom_case_bound 128 (by norm_num) _ p hp
      · simp only [Spi.writePageSize, Option.some.injEq] at hpage
        subst hpage
        exact Spi.flash_case_bound _ p hp
      · simp only [Spi.writePageSize, Option.some.injEq] at hpage
        subst hpage
        exact Spi.flash_case_bound _ p hp
      · simp only [Spi.writePageSize, Option.some.injEq] at hpage
        subst hpage
        exact Spi.flash_case_bound _ p hp
      · simp only [Spi.writePageSize, Option.some.injEq] at hpage
        subst hpage
        exact Spi.flash_case_bound _ p hp
      · simp [Spi.writePageSize] at hpage
  · intro ht h1 h2
    subst ht
    rw [Spi.card_spi_write_chunks]
    rw [if_neg (by omega)]
    dsimp only [Spi.card_spi_get_size]
    have hmin : min size (32 * 1024) = size := by omega
    rw [hmin]
    obtain ⟨n, rfl⟩ : ∃ n, size = n + 1 := ⟨size - 1, by omega⟩
    rw [Spi.eeprom_write_chunks, Spi.eepromWriteChunksGo]
    rw [if_neg (by omega)]
    dsimp only
    have hchunk : min ((n + 1) - 0 % (n + 1)) (n + 1) = n + 1 := by
      rw [Nat.zero_mod]
      simp
    rw [hchunk]
    rw [show (n + 1) - (n + 1) = 0 by omega]
    rw [Spi.eepromWriteChunksGo_zero]

/-- Witness for C9 (amended): a 100-byte FRAM write is one transaction of
100 bytes. -/
theorem spi_chunk_bounds_witness :
    Spi.card_spi_write_chunks CardSaveType.SAVE_TYPE_FRAM_32K 100
      = [(0, 100)] :=
  (spi_chunk_bounds CardSaveType.SAVE_TYPE_FRAM_32K 100).2.2 rfl
    (by norm_num) (by norm_num)

namespace Client

/-- FS_MediaType values the client dispatches on (3ds.h). -/
inductive FS_MediaType where
  | MEDIATYPE_NAND
  | MEDIATYPE_SD
  | MEDIATYPE_GAME_CARD
deriving DecidableEq, Repr

/-- The 64-character all-zeros hash placed in the metadata for titles with
no readable save (sync.c line 331). -/
def zeros64 : String :=
  ⟨List.replicate 64 '0'⟩

/-- The fields build_title_json (sync.c lines 115-136) serializes for one
title; the last_synced_hash field is present only when the caller passed
a non-NULL, non-empty hash. -/
structure TitleEntry where
  title_id : String
  save_hash : String
  timestamp : Nat
  size : Nat
  last_synced_hash : Option String
deriving DecidableEq, Repr

/-- Embedding of build_title_json as the record of serialized fields. -/
def build_title_json (title_id_hex : String) (hash : String)
    (timestamp total_size : Nat) (last_synced_hash : Option String) :
    TitleEntry :=
  ⟨title_id_hex, hash, timestamp, total_size,
    match last_synced_hash with
    | some l => if l ≠ "" then some l else none
    | none => none⟩

/-- One title as the metadata loop of sync_all sees it: its id, media
type, and the oracles for the adapter read (none models a negative file
count) and the last-synced state file load. -/
structure ScanTitle where
  title_id_hex : String
  media_type : FS_MediaType
  readResult : Option (List ArchiveFile)
  lastSynced : Option String
deriving DecidableEq

/-- The metadata entry sync_all (sync.c lines 301-346) builds for one
title: cartridge titles are skipped; a read error is coerced to zero
files; zero files yield the all-zeros hash and size 0; otherwise the save
hash and total size of the files read. -/
def sync_all_entry (timestamp : Nat) (t : ScanTitle) : Option TitleEntry :=
  if t.media_type = FS_MediaType.MEDIATYPE_GAME_CARD then none
  else
    let files := match t.readResult with
      | none => []
      | some fs => fs
    if files.length > 0 then
      some (build_title_json t.title_id_hex (bundle_compute_save_hash files)
        timestamp (files.foldl (fun acc f => acc + f.size) 0) t.lastSynced)
    else
      some (build_title_json t.title_id_hex zeros64 timestamp 0 t.lastSynced)

/-- The metadata list POSTed to /sync, in title order. -/
def sync_all_entries (timestamp : Nat) (titles : List ScanTitle) :
    List TitleEntry :=
  titles.filterMap (sync_all_entry timestamp)

end Client

/-- Claim C10: every non-cartridge title whose adapter read fails or
yields no files is still included in the /sync metadata with its
save_hash equal to the 64-character all-zeros string; a read error
produces exactly the same entry as an empty save; and the zero hash is
64 zero characters. -/
theorem sync_all_includes_empty_saves (timestamp : Nat)
    (titles : List Client.ScanTitle) :
    (∀ t ∈ titles, t.media_type ≠ Client.FS_MediaType.MEDIATYPE_GAME_CARD →
      (t.readResult = none ∨ t.readResult = some []) →
      Client.sync_all_entry timestamp t
        = some (Client.build_title_json t.title_id_hex Client.zeros64
            timestamp 0 t.lastSynced) ∧
      Client.build_title_json t.title_id_hex Client.zeros64 timestamp 0
          t.lastSynced
        ∈ Client.sync_all_entries timestamp titles)
    ∧ (∀ t : Client.ScanTitle,
      Client.sync_all_entry timestamp { t with readResult := none }
        = Client.sync_all_entry timestamp { t with readResult := some [] })
    ∧ Client.zeros64.length = 64
    ∧ (∀ c ∈ Client.zeros64.data, c = '0') := by
  refine ⟨?_, ?_, by decide, ?_⟩
  · intro t ht hmed hread
    have hentry : Client.sync_all_entry timestamp t
        = some (Client.build_title_json t.title_id_hex Client.zeros64
            timestamp 0 t.lastSynced) := by
      unfold Client.sync_all_entry
      rw [if_neg hmed]
      rcases hread with hread | hread <;> rw [hread] <;> rfl
    refine ⟨hentry, ?_⟩
    unfold Client.sync_all_entries
    exact List.mem_filterMap.mpr ⟨t, ht, hentry⟩
  · intro t
    unfold Client.sync_all_entry
    by_cases hmed : t.media_type = Client.FS_MediaType.MEDIATYPE_GAME_CARD <;>
      simp [hmed]
  · intro c hc
    simp only [Client.zeros64] at hc
    exact List.eq_of_mem_replicate hc

/-- Witness for C10: a single NAND title whose read failed appears in the
metadata with the all-zeros hash. -/
theorem sync_all_includes_empty_saves_witness :
    Client.sync_all_entry 9
        ⟨"0004000000001234", Client.FS_MediaType.MEDIATYPE_NAND, none, none⟩
      = some (Client.build_title_json "0004000000001234" Client.zeros64 9 0
          none) ∧
    Client.build_title_json "0004000000001234" Client.zeros64 9 0 none
      ∈ Client.sync_all_entries 9
          [⟨"0004000000001234", Client.FS_MediaType.MEDIATYPE_NAND, none,
            none⟩] :=
  (sync_all_includes_empty_saves 9
      [⟨"0004000000001234", Client.FS_MediaType.MEDIATYPE_NAND, none, none⟩]).1
    ⟨"0004000000001234", Client.FS_MediaType.MEDIATYPE_NAND, none, none⟩
    (by simp) (by simp) (Or.inl rfl)
